import Mathlib

/-!
Verification development for the `my_stock` scan engine and its data/cache
layers.

The Python source is shallowly embedded as follows.

* `pandas` float columns are modelled as exact rationals (`ℚ`).  The one
  float primitive with no exact rational counterpart, `sqrt` (used by
  `Series.rolling(...).std()` / `Series.std()`), is abstracted as an explicit
  function parameter `sq : ℚ → ℚ` of the scan functions; every theorem
  quantifies over `sq`, so it holds in particular for the true square root.
* Division by zero: `ℚ` division yields `0` where Python produces
  `inf`/`nan`.  Wherever the source inspects or filters such values
  (`_safe_div`, `fillna`, `np.isfinite` replacements, explicit `!= 0`
  guards) the embedding reproduces the source's case split explicitly, so
  the convention is never observable in the statements proved here.
* All arithmetic on `ℚ` inside executable definitions goes through the
  wrappers `qadd`, `qsub`, `qmul`, `qdiv`, `qneg`, `qabs`, `qmax`, `qmin`,
  `cq` below.  They are provably equal to the ordinary field operations
  (`qadd_eq` etc.) but are written via `Rat.divInt`/`mkRat`, which the
  kernel can evaluate on concrete inputs; this lets concrete witnesses be
  checked by `decide`.
* `ticker` (a zero-padded 6-character code) and `date` (a calendar day) are
  modelled as `ℕ`; only their equality and ordering are ever used by the
  embedded code.
-/

/-! ### Rational-arithmetic wrappers -/

/-- Addition on `ℚ` via `Rat.divInt` (kernel-evaluable). -/
def qadd (a b : ℚ) : ℚ := Rat.divInt (a.num * b.den + b.num * a.den) (a.den * b.den)

/-- Multiplication on `ℚ` via `Rat.divInt` (kernel-evaluable). -/
def qmul (a b : ℚ) : ℚ := Rat.divInt (a.num * b.num) (a.den * b.den)

/-- Division on `ℚ` via `Rat.divInt`; division by zero gives `0`, matching
the `ℚ` convention. -/
def qdiv (a b : ℚ) : ℚ := Rat.divInt (a.num * b.den) (a.den * b.num)

/-- Negation on `ℚ` via `Rat.divInt` (kernel-evaluable). -/
def qneg (a : ℚ) : ℚ := Rat.divInt (-a.num) a.den

/-- Subtraction on `ℚ` (kernel-evaluable). -/
def qsub (a b : ℚ) : ℚ := qadd a (qneg b)

/-- Absolute value on `ℚ` (kernel-evaluable). -/
def qabs (a : ℚ) : ℚ := if a < 0 then qneg a else a

/-- Maximum on `ℚ` (kernel-evaluable). -/
def qmax (a b : ℚ) : ℚ := if a ≤ b then b else a

/-- Minimum on `ℚ` (kernel-evaluable). -/
def qmin (a b : ℚ) : ℚ := if a ≤ b then a else b

/-- The rational constant `n / d` (kernel-evaluable). -/
def cq (n : ℤ) (d : ℕ) : ℚ := mkRat n d

/-- The rational image of a natural number (kernel-evaluable). -/
def qofN (n : ℕ) : ℚ := mkRat n 1

/-! ### List helpers shared by the embedded pipelines -/

/-- Sum of a list of rationals (`Series.sum` building block). -/
def qsum (l : List ℚ) : ℚ := l.foldl qadd 0

/-- Arithmetic mean of a list (`Series.mean`); `0` on the empty list, which
never occurs at use sites. -/
def qmean (l : List ℚ) : ℚ := qdiv (qsum l) (qofN l.length)

/-- Maximum of a list (`Series.max`); `0` on the empty list. -/
def qmaxList (l : List ℚ) : ℚ :=
  match l with
  | [] => 0
  | x :: xs => xs.foldl qmax x

/-- Minimum of a list (`Series.min`); `0` on the empty list. -/
def qminList (l : List ℚ) : ℚ :=
  match l with
  | [] => 0
  | x :: xs => xs.foldl qmin x

/-- Sample variance with `ddof = 1` (the square of `Series.std`); `0` when
fewer than two samples, a case that never occurs at use sites. -/
def sampleVar (l : List ℚ) : ℚ :=
  if l.length ≤ 1 then 0
  else
    let mu := qmean l
    qdiv (qsum (l.map (fun x => qmul (qsub x mu) (qsub x mu)))) (qofN (l.length - 1))

/-- Percentage change from `a` to `b` (`Series.pct_change` step).  Python
produces `inf`/`nan` on `a = 0`; the embedding yields `0` there, and every
use site either guards the case away or feeds the value only into clamped
scores. -/
def pctc (a b : ℚ) : ℚ := if a = 0 then 0 else qsub (qdiv b a) 1

/-- Day-over-day percentage changes of a series (`Series.pct_change`). -/
def pctChanges : List ℚ → List ℚ
  | [] => []
  | [_] => []
  | a :: b :: t => pctc a b :: pctChanges (b :: t)

/-- The last `k` elements of a list (`Series.tail(k)`). -/
def takeLast {α : Type} (l : List α) (k : ℕ) : List α := l.drop (l.length - k)

/-- The window of `w` elements ending `off` places before the end of `xs`:
the value of `xs.rolling(w).agg(...).shift(off)` at the final index.  `none`
when the window is incomplete (pandas `NaN`) or `w = 0`. -/
def rollWin (w off : ℕ) (xs : List ℚ) : Option (List ℚ) :=
  if w = 0 ∨ xs.length < w + off then none
  else some ((xs.take (xs.length - off)).drop (xs.length - off - w))

/-- Rolling-mean value at the final index (after `shift off`). -/
def rollMean (w off : ℕ) (xs : List ℚ) : Option ℚ := (rollWin w off xs).map qmean

/-- Rolling-max value at the final index (after `shift off`). -/
def rollMax (w off : ℕ) (xs : List ℚ) : Option ℚ := (rollWin w off xs).map qmaxList

/-- Rolling-min value at the final index (after `shift off`). -/
def rollMin (w off : ℕ) (xs : List ℚ) : Option ℚ := (rollWin w off xs).map qminList

/-- `x` clamped into `[0, 1]` (`Series.clip(0, 1)` / the source's
`_clamp01`). -/
def clamp01 (x : ℚ) : ℚ := if x < 0 then 0 else if 1 < x then 1 else x

/-- Linear-interpolation quantile of a list at probability `q`
(`Series.quantile(q)`, pandas default interpolation); `0` on the empty
list, a case that never occurs at use sites. -/
def pandasQuantile (q : ℚ) (l : List ℚ) : ℚ :=
  match l.insertionSort (· ≤ ·) with
  | [] => 0
  | a :: t =>
    let s := a :: t
    let n := s.length
    let hpos : ℚ := qmul (qofN (n - 1)) q
    let f : ℕ := (qmul (qofN (n - 1)) q).floor.toNat
    let g : ℚ := qsub hpos (qofN f)
    if f + 1 ≤ n - 1 then
      qadd (s.getD f 0) (qmul g (qsub (s.getD (f + 1) 0) (s.getD f 0)))
    else s.getD f 0

/-- Percentile rank with average tie handling (`Series.rank(pct=True)`):
the mean 1-based rank of `x` among `l`, divided by `l.length`. -/
def rankPct (l : List ℚ) (x : ℚ) : ℚ :=
  let lt := l.countP (fun y => decide (y < x))
  let eq := l.countP (fun y => decide (y = x))
  qdiv (qadd (qofN lt) (qdiv (qofN (eq + 1)) (qofN 2))) (qofN l.length)

/-! ### MD5 (RFC 1321), used by `core/scan_cache.py`'s `scan_signature`
(`hashlib.md5(s.encode("utf-8")).hexdigest()`).  Messages are byte lists;
all words are `Nat` taken modulo `2^32`. -/

/-- `2^32`, the MD5 word modulus. -/
def w32 : ℕ := 4294967296

/-- The 64 MD5 sine-derived constants `K[i] = floor(abs(sin(i+1)) * 2^32)`. -/
def md5K : List ℕ := [3614090360, 3905402710, 606105819, 3250441966, 4118548399, 1200080426, 2821735955, 4249261313, 1770035416, 2336552879, 4294925233, 2304563134, 1804603682, 4254626195, 2792965006, 1236535329, 4129170786, 3225465664, 643717713, 3921069994, 3593408605, 38016083, 3634488961, 3889429448, 568446438, 3275163606, 4107603335, 1163531501, 2850285829, 4243563512, 1735328473, 2368359562, 4294588738, 2272392833, 1839030562, 4259657740, 2763975236, 1272893353, 4139469664, 3200236656, 681279174, 3936430074, 3572445317, 76029189, 3654602809, 3873151461, 530742520, 3299628645, 4096336452, 1126891415, 2878612391, 4237533241, 1700485571, 2399980690, 4293915773, 2240044497, 1873313359, 4264355552, 2734768916, 1309151649, 4149444226, 3174756917, 718787259, 3951481745]

/-- The 64 MD5 per-round left-rotation amounts. -/
def md5S : List ℕ := [7, 12, 17, 22, 7, 12, 17, 22, 7, 12, 17, 22, 7, 12, 17, 22, 5, 9, 14, 20, 5, 9, 14, 20, 5, 9, 14, 20, 5, 9, 14, 20, 4, 11, 16, 23, 4, 11, 16, 23, 4, 11, 16, 23, 4, 11, 16, 23, 6, 10, 15, 21, 6, 10, 15, 21, 6, 10, 15, 21, 6, 10, 15, 21]

/-- 32-bit left rotation. -/
def rotl32 (x s : ℕ) : ℕ := ((x <<< s) ||| (x >>> (32 - s))) % w32

/-- 32-bit bitwise complement. -/
def not32 (x : ℕ) : ℕ := 4294967295 - x

/-- The `k` least-significant bytes of `v`, little-endian. -/
def leBytes : ℕ → ℕ → List ℕ
  | 0, _ => []
  | k + 1, v => v % 256 :: leBytes k (v / 256)

/-- MD5 padding: `0x80`, zeros to 56 mod 64, then the bit length as a
64-bit little-endian integer. -/
def md5Pad (msg : List ℕ) : List ℕ :=
  let len := msg.length
  let padLen := (119 - len % 64) % 64
  msg ++ [128] ++ List.replicate padLen 0 ++ leBytes 8 ((8 * len) % (2 ^ 64))

/-- Split a byte list into chunks of `k` bytes (fuel-driven recursion). -/
def chunksGo (k : ℕ) : ℕ → List ℕ → List (List ℕ)
  | _, [] => []
  | 0, l => [l]
  | fuel + 1, l => l.take k :: chunksGo k fuel (l.drop k)

/-- Split a byte list into chunks of `k` bytes. -/
def chunks (k : ℕ) (l : List ℕ) : List (List ℕ) := chunksGo k l.length l

/-- Little-endian 32-bit word from four bytes. -/
def leWord (bs : List ℕ) : ℕ :=
  match bs with
  | [b0, b1, b2, b3] => b0 + 256 * b1 + 65536 * b2 + 16777216 * b3
  | _ => 0

/-- One MD5 round: state `(A, B, C, D)`, round index `i`, message words `M`. -/
def md5Step (M : List ℕ) (st : ℕ × ℕ × ℕ × ℕ) (i : ℕ) : ℕ × ℕ × ℕ × ℕ :=
  let (A, B, C, D) := st
  let fg : ℕ × ℕ :=
    if i < 16 then ((B &&& C) ||| (not32 B &&& D), i)
    else if i < 32 then ((D &&& B) ||| (not32 D &&& C), (5 * i + 1) % 16)
    else if i < 48 then (B ^^^ C ^^^ D, (3 * i + 5) % 16)
    else (C ^^^ (B ||| not32 D), (7 * i) % 16)
  let fv := (fg.1 + A + md5K.getD i 0 + M.getD fg.2 0) % w32
  (D, (B + rotl32 fv (md5S.getD i 0)) % w32, B, C)

/-- Process one 64-byte block. -/
def md5Block (st : ℕ × ℕ × ℕ × ℕ) (blk : List ℕ) : ℕ × ℕ × ℕ × ℕ :=
  let M := (chunks 4 blk).map leWord
  let r := (List.range 64).foldl (md5Step M) st
  ((st.1 + r.1) % w32, (st.2.1 + r.2.1) % w32, (st.2.2.1 + r.2.2.1) % w32,
    (st.2.2.2 + r.2.2.2) % w32)

/-- Lower-case hexadecimal digit. -/
def hexDigit (n : ℕ) : Char :=
  if n < 10 then Char.ofNat (48 + n) else Char.ofNat (87 + n)

/-- Two-character hexadecimal rendering of a byte. -/
def byteHex (b : ℕ) : List Char := [hexDigit (b / 16), hexDigit (b % 16)]

/-- MD5 digest of a byte list, rendered as the usual 32-character
lower-case hex string (`hashlib.md5(...).hexdigest()`). -/
def md5Hex (msg : List ℕ) : String :=
  let blocks := chunks 64 (md5Pad msg)
  let r := blocks.foldl md5Block (1732584193, 4023233417, 2562383102, 271733878)
  let bytes := leBytes 4 r.1 ++ leBytes 4 r.2.1 ++ leBytes 4 r.2.2.1 ++ leBytes 4 r.2.2.2
  String.mk (bytes.flatMap byteHex)

/-- UTF-8 bytes of an ASCII string (`s.encode("utf-8")`; every string fed
to the signature is ASCII). -/
def strBytes (s : String) : List ℕ := s.toList.map Char.toNat

/-! ### `core/scan_cache.py` — `scan_signature`

`scan_signature(latest_date, market, top_n, strategy_label, market_mode,
params)` serialises its arguments into a canonical JSON payload
(`json.dumps(payload, sort_keys=True, default=str)`) and hashes it with
MD5.  `params` is a frozen dataclass (`core/strategies/base.py`), so
`params.__dict__` yields its six fields; with `sort_keys=True` both the
outer object keys and the params keys appear in sorted order, which the
embedding writes out explicitly.  Python float fields are modelled by
their shortest decimal representation (a mantissa/scale pair), which is
exactly what `json.dumps` prints for them. -/

/-- Decimal digits of a natural number (most significant first). -/
def natDigits : ℕ → ℕ → List ℕ
  | 0, _ => []
  | _ + 1, 0 => []
  | fuel + 1, v => natDigits fuel (v / 10) ++ [v % 10]

/-- Decimal string of a natural number. -/
def natStr (n : ℕ) : String :=
  if n = 0 then "0"
  else String.mk ((natDigits n n).map (fun d => Char.ofNat (48 + d)))

/-- Decimal string of an integer (as printed by `json.dumps` for `int`). -/
def intStr (i : ℤ) : String :=
  match i with
  | Int.ofNat n => natStr n
  | Int.negSucc n => "-" ++ natStr (n + 1)

/-- A Python float modelled by its shortest decimal representation
`mant / 10 ^ scale`; `floatStr` prints it the way `repr`/`json.dumps`
print the corresponding float literal. -/
structure PyFloat where
  mant : ℕ
  scale : ℕ
deriving DecidableEq

/-- Zero-left-padded decimal string of `n` with width `w`. -/
def natStrPad (n w : ℕ) : String :=
  let d := natStr n
  String.mk (List.replicate (w - d.length) '0') ++ d

/-- `json.dumps` rendering of a modelled Python float. -/
def floatStr (f : PyFloat) : String :=
  if f.scale = 0 then natStr f.mant ++ ".0"
  else natStr (f.mant / 10 ^ f.scale) ++ "." ++ natStrPad (f.mant % 10 ^ f.scale) f.scale

/-- JSON string literal (arguments contain no characters needing
escapes). -/
def jstr (s : String) : String := "\"" ++ s ++ "\""

/-- `str.upper()` for ASCII strings. -/
def asciiUpper (s : String) : String :=
  String.mk (s.toList.map (fun c =>
    if 97 ≤ c.toNat ∧ c.toNat ≤ 122 then Char.ofNat (c.toNat - 32) else c))

/-- `json.dumps` rendering of `top_n` (`None` or an `int`). -/
def topNStr (t : Option ℤ) : String :=
  match t with
  | none => "null"
  | some n => intStr n

/-- The six fields of `ScanParams` (`core/strategies/base.py`) as they
enter the cache signature: `ma5_up_days` is an `int`, the rest are
floats/ints per the dataclass defaults. -/
structure SigParams where
  tolerance : PyFloat
  stop_lookback : ℤ
  stop_buffer : PyFloat
  target_lookback : ℤ
  min_rr : PyFloat
  ma5_up_days : ℤ
deriving DecidableEq

/-- The bundled arguments of `scan_signature`. -/
structure SigArgs where
  latest_date : String
  market : String
  top_n : Option ℤ
  strategy_label : String
  market_mode : String
  params : SigParams
deriving DecidableEq

/-- The canonical JSON payload built by `scan_signature` (object keys in
sorted order, exactly as `json.dumps(..., sort_keys=True)` emits them,
with the default `", "` / `": "` separators). -/
def sigPayload (a : SigArgs) : String :=
  "\x7b\"latest_date\": " ++ jstr a.latest_date ++
  ", \"market\": " ++ jstr (asciiUpper a.market) ++
  ", \"market_mode\": " ++ jstr a.market_mode ++
  ", \"params\": \x7b\"ma5_up_days\": " ++ intStr a.params.ma5_up_days ++
  ", \"min_rr\": " ++ floatStr a.params.min_rr ++
  ", \"stop_buffer\": " ++ floatStr a.params.stop_buffer ++
  ", \"stop_lookback\": " ++ intStr a.params.stop_lookback ++
  ", \"target_lookback\": " ++ intStr a.params.target_lookback ++
  ", \"tolerance\": " ++ floatStr a.params.tolerance ++
  "\x7d, \"strategy\": " ++ jstr a.strategy_label ++
  ", \"top_n\": " ++ topNStr a.top_n ++ "\x7d"

/-- `scan_signature` (`core/scan_cache.py`): the MD5 hex digest of the
canonical JSON payload. -/
def scan_signature (a : SigArgs) : String := md5Hex (strBytes (sigPayload a))


/-! ### `core/data_loader.py` — panel merge

`update_parquet_cache_for_market` (lines 123-278) concatenates the cached
panel with the newly read daily rows, deduplicates on `(date, ticker)`
keeping the last occurrence, sorts by `(ticker, date)`, writes the result
to the parquet cache, and only then filters out rows with non-positive
`close` before returning.  `update_merged_parquet_from_daily`
(lines 426-482, the binding in effect) performs the same
concat/dedup/sort and writes the result with no close filter.  A `Row`
is one OHLCV bar; unparseable-date rows are dropped before this point, so
every modelled row has a date. -/

/-- One panel row (a Bar): ticker and date as ordered keys, OHLCV data. -/
structure Row where
  ticker : ℕ
  date : ℕ
  opn : ℚ
  high : ℚ
  low : ℚ
  close : ℚ
  volume : ℚ
deriving DecidableEq

/-- The dedup/sort key of a row. -/
def keyOf (r : Row) : ℕ × ℕ := (r.ticker, r.date)

/-- Whether some row of `l` has key `k`. -/
def hasKey (k : ℕ × ℕ) (l : List Row) : Bool := l.any (fun y => decide (keyOf y = k))

/-- `drop_duplicates(subset=["date", "ticker"], keep="last")`: keep a row
iff no later row shares its key. -/
def keepLast : List Row → List Row
  | [] => []
  | x :: xs => if hasKey (keyOf x) xs then keepLast xs else x :: keepLast xs

/-- Lexicographic order on `(ticker, date)` keys. -/
def keyLe (a b : ℕ × ℕ) : Prop := a.1 < b.1 ∨ (a.1 = b.1 ∧ a.2 ≤ b.2)

instance (a b : ℕ × ℕ) : Decidable (keyLe a b) := by
  unfold keyLe
  infer_instance

/-- Row comparison used by `sort_values(["ticker", "date"])`. -/
def rowLe (a b : Row) : Prop := keyLe (keyOf a) (keyOf b)

instance (a b : Row) : Decidable (rowLe a b) := by
  unfold rowLe
  infer_instance

/-- `sort_values(["ticker", "date"])` (modelled as a stable sort). -/
def sortKey (l : List Row) : List Row := l.insertionSort rowLe

/-- The merge core shared by both cache-update functions: concatenate,
dedup keeping last on `(date, ticker)`, sort by `(ticker, date)`. -/
def mergeSnap (base inc : List Row) : List Row := sortKey (keepLast (base ++ inc))

/-- The panel `update_parquet_cache_for_market` persists to the parquet
cache (lines 250-263): the merged, deduplicated, sorted rows, written
BEFORE the `close > 0` filter runs. -/
def updateCachePersisted (cached newRows : List Row) : List Row := mergeSnap cached newRows

/-- The panel `update_parquet_cache_for_market` returns to the caller
(lines 266-278): the persisted panel with non-positive closes removed. -/
def updateCacheReturned (cached newRows : List Row) : List Row :=
  (updateCachePersisted cached newRows).filter (fun r => decide (0 < r.close))

/-- The panel `update_merged_parquet_from_daily` (second binding,
lines 426-482) persists: same merge core, no close filter at all. -/
def updateMergedFromDailyPersisted (base inc : List Row) : List Row := mergeSnap base inc

instance : IsTotal Row rowLe where
  total a b := by
    unfold rowLe keyLe
    omega

instance : IsTrans Row rowLe where
  trans a b c := by
    unfold rowLe keyLe
    omega

/-- Whether the keys of a row list are pairwise distinct. -/
def keysNodup (l : List Row) : Prop := (l.map keyOf).Nodup

/-! ### `core/universe.py` — `apply_top_n` (lines 79-168)

A universe row carries the ticker, the date, and the (already numeric,
`pd.to_numeric(..., errors="coerce")`) ranking attribute, `none` for
`NaN`.  `apply_top_n` with a positive `top_n` takes the snapshot of rows
at the resolved latest date, sorts it by rank descending (`NaN` last),
keeps the best-ranked row per ticker, takes the first `n` tickers and
filters the whole panel to those tickers.  With `top_n` `None` or
non-positive the (normalised) panel is returned unchanged. -/

/-- A row as seen by `apply_top_n`: key columns plus the rank column. -/
structure URow where
  ticker : ℕ
  date : ℕ
  rank : Option ℚ
deriving DecidableEq

/-- Diagnostic record mirroring `UniverseInfo` (market omitted: it is
filled cosmetically by the caller). -/
structure UInfo where
  top_n : Option ℤ
  latest_date : ℕ
  tickers : ℕ
  rows : ℕ
deriving DecidableEq

/-- `get_latest_date`: the maximum date of the panel (`0` on the empty
panel, which `apply_top_n` handles before calling it). -/
def maxDate (rows : List URow) : ℕ := (rows.map (fun r => r.date)).foldl max 0

/-- Rank-descending comparison with `NaN` placed last
(`sort_values(rank_col, ascending=False, na_position="last")`). -/
def rankGe (a b : URow) : Prop :=
  match a.rank, b.rank with
  | some x, some y => y ≤ x
  | some _, none => True
  | none, some _ => False
  | none, none => True

instance (a b : URow) : Decidable (rankGe a b) := by
  unfold rankGe
  exact match a.rank, b.rank with
  | some _, some _ => inferInstance
  | some _, none => inferInstance
  | none, some _ => inferInstance
  | none, none => inferInstance

/-- `drop_duplicates(subset=["ticker"], keep="first")` via a seen-set. -/
def dedupFirstByTicker (seen : List ℕ) : List URow → List URow
  | [] => []
  | x :: xs =>
    if x.ticker ∈ seen then dedupFirstByTicker seen xs
    else x :: dedupFirstByTicker (x.ticker :: seen) xs

/-- `apply_top_n(df, top_n, rank_by, latest_date)`; the rank column is the
one `_pick_rank_column` resolved (present by assumption in this model,
matching the claim's "usable rank column").  Returns the filtered panel
and the `UniverseInfo` diagnostic. -/
def apply_top_n (rows : List URow) (top_n : Option ℤ) (latest_date : Option ℕ) :
    List URow × UInfo :=
  if rows = [] then (rows, ⟨top_n, latest_date.getD 0, 0, 0⟩)
  else
    let ld0 := latest_date.getD (maxDate rows)
    match top_n with
    | none => (rows, ⟨none, ld0, ((rows.map (fun r => r.ticker)).dedup).length, rows.length⟩)
    | some n =>
      if n ≤ 0 then
        (rows, ⟨none, ld0, ((rows.map (fun r => r.ticker)).dedup).length, rows.length⟩)
      else
        let snap0 := rows.filter (fun r => decide (r.date = ld0))
        let ld := if snap0 = [] then maxDate rows else ld0
        let snap := if snap0 = [] then rows.filter (fun r => decide (r.date = maxDate rows)) else snap0
        let ranked := dedupFirstByTicker [] (snap.insertionSort rankGe)
        let top := (ranked.take n.toNat).map (fun r => r.ticker)
        let filtered := rows.filter (fun r => top.contains r.ticker)
        (filtered, ⟨some n, ld, top.length, filtered.length⟩)

/-- The number of distinct tickers appearing in a universe panel. -/
def distinctTickers (rows : List URow) : ℕ := ((rows.map (fun r => r.ticker)).dedup).length


/-! ### `core/strategies/base.py` — `ScanParams`, and panel grouping

`ScanParams` in `base.py` declares `tolerance`, `stop_lookback`,
`stop_buffer`, `target_lookback`, `min_rr`, `ma5_up_days`.
`PullbackRRStrategy.scan` additionally reads `params.require_ma5_positive`
and `params.ma5_min_slope`, attributes the dataclass does not declare but
the only real caller (`ui/sidebar.py`) supplies when it constructs the
params object.  The embedding takes the union of the declared and the read
attributes; `ma5_up_days` is read by no strategy code. -/

/-- The scan-parameter record (union of `base.py`'s declared fields and
the attributes `pullback_rr.py` reads; see the section comment). -/
structure ScanParams where
  tolerance : ℚ
  stop_lookback : ℕ
  stop_buffer : ℚ
  target_lookback : ℕ
  min_rr : ℚ
  ma5_up_days : ℤ
  require_ma5_positive : Bool
  ma5_min_slope : ℚ
deriving DecidableEq

/-- The distinct tickers of a panel in ascending order (`groupby("ticker")`
iterates groups in sorted key order). -/
def tickersSorted (rows : List Row) : List ℕ :=
  ((rows.map (fun r => r.ticker)).dedup).insertionSort (· ≤ ·)

/-- One ticker's rows in date order (`sort_values(["ticker", "date"])` /
per-group `sort_values("date")`, modelled as a stable sort). -/
def groupOf (rows : List Row) (t : ℕ) : List Row :=
  (rows.filter (fun r => decide (r.ticker = t))).insertionSort (fun a b => a.date ≤ b.date)

/-- The last row of a date-sorted group (`groupby(...).tail(1)` /
`g.iloc[-1]`); the default is never reached at use sites (groups are
non-empty there). -/
def lastD (l : List Row) : Row := l.getLastD ⟨0, 0, 0, 0, 0, 0, 0⟩

/-! ### `core/strategies/pullback_rr.py` — Strategy A (`PullbackRRStrategy.scan`)

Stage structure of the source: minimum-length filter (120), rolling
indicators, one as-of row per ticker, `NaN` drop (`need_cols`), the filter
cascade (uptrend, momentum, proximity to MA20, volume cooling, positive
risk/reward, `min_rr`), the MA5-slope block with its optional filter, the
per-row sub-scores, then the relative-strength percentile over the
surviving rows and the final re-scored, score-sorted output.  The source
applies each stage as a whole-column mask; stages are per-ticker
independent except the final percentile and sort, so the embedding runs
the cascade per ticker (`stepA`) and then the two cohort-level passes.
The `min_rr` mask (source line 166) is applied here after the MA5-slope
block rather than before it; no computed value depends on the mask, so
the emitted rows are identical. -/

/-- The as-of indicator row of one ticker (`need_cols` values plus the
last close and date); `asofA = none` models a `NaN` in `need_cols`. -/
structure AsofA where
  date : ℕ
  close : ℚ
  ma5 : ℚ
  ma20 : ℚ
  ma60 : ℚ
  vol_ma20 : ℚ
  std20 : ℚ
  ret20 : ℚ
  high20 : ℚ
  high60 : ℚ
  recent_low : ℚ
  target : ℚ
  vol_5 : ℚ
  ma20_5ago : ℚ
  ma5_3ago : ℚ
deriving DecidableEq

/-- One output row of Strategy A (the source's `out_cols`). -/
structure CandA where
  ticker : ℕ
  date : ℕ
  entry : ℚ
  stop : ℚ
  target : ℚ
  risk : ℚ
  reward : ℚ
  rr : ℚ
  ma5 : ℚ
  ma5_slope_3d : ℚ
  ma5_slope_score : ℚ
  ma20 : ℚ
  ma60 : ℚ
  ma20_slope_5d : ℚ
  ret20 : ℚ
  bb_width : ℚ
  vol_ratio_5v20 : ℚ
  rr_pref : ℚ
  trend_score : ℚ
  vol_score : ℚ
  vol_score2 : ℚ
  rs_score : ℚ
  score : ℚ
deriving DecidableEq

instance : Inhabited CandA := ⟨⟨0, 0, 0, 0, 0, 0, 0, 0, 0, 0, 0, 0, 0, 0, 0, 0, 0, 0, 0, 0, 0, 0, 0⟩⟩

/-- The rolling indicators of `pullback_rr.py` lines 62-79 evaluated at a
ticker's last row, `none` when any `need_cols` entry is `NaN`
(lines 84-88). -/
def asofA (sq : ℚ → ℚ) (p : ScanParams) (l : List Row) : Option AsofA :=
  let closes := l.map (fun r => r.close)
  let highs := l.map (fun r => r.high)
  let lows := l.map (fun r => r.low)
  let vols := l.map (fun r => r.volume)
  let rets := pctChanges closes
  let last := lastD l
  match rollMean 5 0 closes, rollMean 20 0 closes, rollMean 60 0 closes,
      rollMean 20 0 vols, (rollWin 20 0 rets).map (fun w => sq (sampleVar w)),
      (if closes.length < 21 then none
       else some (pctc (closes.getD (closes.length - 21) 0) last.close)),
      rollMax 20 0 highs, rollMax 60 0 highs,
      rollMin p.stop_lookback 0 lows, rollMax p.target_lookback 0 highs,
      rollMean 5 0 vols, rollMean 20 5 closes, rollMean 5 3 closes with
  | some ma5, some ma20, some ma60, some vol_ma20, some std20, some ret20,
      some high20, some high60, some recent_low, some target, some vol_5,
      some ma20_5ago, some ma5_3ago =>
    some ⟨last.date, last.close, ma5, ma20, ma60, vol_ma20, std20, ret20,
      high20, high60, recent_low, target, vol_5, ma20_5ago, ma5_3ago⟩
  | _, _, _, _, _, _, _, _, _, _, _, _, _ => none

/-- `entry = last close` (source line 148). -/
def entryA (a : AsofA) : ℚ := a.close

/-- `stop = recent_low * (1 - stop_buffer)` (line 149). -/
def stopA (a : AsofA) (p : ScanParams) : ℚ := qmul a.recent_low (qsub 1 p.stop_buffer)

/-- `risk = entry - stop` (line 150). -/
def riskA (a : AsofA) (p : ScanParams) : ℚ := qsub (entryA a) (stopA a p)

/-- `reward = target - entry` (line 151). -/
def rewardA (a : AsofA) : ℚ := qsub a.target a.close

/-- `rr = reward / risk` (line 165). -/
def rrA (a : AsofA) (p : ScanParams) : ℚ := qdiv (rewardA a) (riskA a p)

/-- `ma5_slope_3d = ma5 / ma5_3ago - 1`, with the `fillna(0)` /
`isfinite` replacement of lines 179-180 modelled as the `ma5_3ago = 0`
case. -/
def slopeA (a : AsofA) : ℚ := if a.ma5_3ago = 0 then 0 else qsub (qdiv a.ma5 a.ma5_3ago) 1

/-- `ma5_slope_score = clip(ma5_slope_3d / 0.01, 0, 1)` (line 181). -/
def slopeScoreA (a : AsofA) : ℚ := clamp01 (qdiv (slopeA a) (cq 1 100))

/-- `rr_pref` (lines 201-203, center 2.15, half-width 1.35). -/
def rrPrefA (a : AsofA) (p : ScanParams) : ℚ :=
  clamp01 (qsub 1 (qdiv (qabs (qsub (rrA a p) (cq 43 20))) (cq 27 20)))

/-- `ma20_slope_5d` (lines 206-207) with the same zero-denominator
replacement. -/
def ma20Slope5dA (a : AsofA) : ℚ :=
  if a.ma20_5ago = 0 then 0 else qsub (qdiv a.ma20 a.ma20_5ago) 1

/-- `trend_score = 0.6 * clip(ma20_slope_5d/0.02) + 0.4 * clip(ret20/0.1)`
(lines 208-213). -/
def trendScoreA (a : AsofA) : ℚ :=
  qadd (qmul (cq 6 10) (clamp01 (qdiv (ma20Slope5dA a) (cq 2 100))))
    (qmul (cq 4 10) (clamp01 (qdiv a.ret20 (cq 1 10))))

/-- `bb_width = 4 * std20` (line 217). -/
def bbWidthA (a : AsofA) : ℚ := qmul (cq 4 1) a.std20

/-- `vol_score = clip(1 - bb_width/0.20)` (line 218). -/
def volScoreA (a : AsofA) : ℚ := clamp01 (qsub 1 (qdiv (bbWidthA a) (cq 1 5)))

/-- `vol_ratio_5v20 = vol_5 / vol_ma20`, `inf`/`NaN` replaced by `1.0`
(line 221). -/
def volRatioA (a : AsofA) : ℚ := if a.vol_ma20 = 0 then 1 else qdiv a.vol_5 a.vol_ma20

/-- `vol_score2 = clip(1 - |vol_ratio_5v20 - 0.75| / 0.75)` (line 222). -/
def volScore2A (a : AsofA) : ℚ :=
  clamp01 (qsub 1 (qdiv (qabs (qsub (volRatioA a) (cq 3 4))) (cq 3 4)))

/-- The line-235 score value (with the placeholder `rs_score = 0`),
recomputed later by `finalizeA`. -/
def score0A (a : AsofA) (p : ScanParams) : ℚ :=
  qmul (cq 100 1)
    (qadd (qmul (cq 35 100) (rrPrefA a p))
      (qadd (qmul (cq 20 100) (trendScoreA a))
        (qadd (qmul (cq 15 100) (volScoreA a))
          (qadd (qmul (cq 10 100) (volScore2A a))
            (qadd (qmul (cq 10 100) (0 : ℚ)) (qmul (cq 10 100) (slopeScoreA a)))))))

/-- The Strategy A output row of one surviving ticker (the source's
`out_cols` at lines 237-242, before the final percentile pass). -/
def buildA (t : ℕ) (a : AsofA) (p : ScanParams) : CandA :=
  ⟨t, a.date, entryA a, stopA a p, a.target, riskA a p, rewardA a, rrA a p,
    a.ma5, slopeA a, slopeScoreA a, a.ma20, a.ma60, ma20Slope5dA a, a.ret20,
    bbWidthA a, volRatioA a, rrPrefA a p, trendScoreA a, volScoreA a,
    volScore2A a, 0, score0A a p⟩

/-- The per-ticker filter cascade of Strategy A (everything up to the
`min_rr` and MA5-slope masks), in source order: length, `NaN` drop,
uptrend, momentum, proximity to MA20, volume cooling, positive
risk/reward. -/
def stepACore (sq : ℚ → ℚ) (p : ScanParams) (t : ℕ) (l : List Row) : Option CandA :=
  if l.length < 120 then none
  else
    match asofA sq p l with
    | none => none
    | some a =>
      if ¬ (a.ma60 < a.ma20) then none
      else if ¬ (qmul a.high60 (cq 95 100) ≤ a.high20) then none
      else if a.ma20 = 0 then none
      else if ¬ (qdiv (qabs (qsub a.close a.ma20)) a.ma20 ≤ p.tolerance) then none
      else if ¬ (0 < a.vol_ma20 ∧ a.vol_5 ≤ qmul a.vol_ma20 (cq 3 2)) then none
      else if ¬ (0 < riskA a p ∧ 0 < rewardA a) then none
      else some (buildA t a p)

/-- Strategy A per ticker: the core cascade, the `min_rr` mask
(source line 166), and the optional MA5-slope mask (lines 183-186, reading
the undeclared `require_ma5_positive` / `ma5_min_slope` attributes). -/
def stepA (sq : ℚ → ℚ) (p : ScanParams) (t : ℕ) (l : List Row) : Option CandA :=
  match stepACore sq p t l with
  | none => none
  | some c =>
    if ¬ (p.min_rr ≤ c.rr) then none
    else if p.require_ma5_positive ∧ ¬ (p.ma5_min_slope < c.ma5_slope_3d) then none
    else some c

/-- The cohort-level re-scoring pass of Strategy A (source lines 246-257):
`rs_score` becomes the percentile rank of `ret20` among the surviving
rows, and `score` is recomputed with the same fixed weights. -/
def finalizeA (rets : List ℚ) (c : CandA) : CandA :=
  let rs := rankPct rets c.ret20
  { c with
    rs_score := rs
    score := qmul (cq 100 1)
      (qadd (qmul (cq 35 100) c.rr_pref)
        (qadd (qmul (cq 20 100) c.trend_score)
          (qadd (qmul (cq 15 100) c.vol_score)
            (qadd (qmul (cq 10 100) c.vol_score2)
              (qadd (qmul (cq 10 100) rs) (qmul (cq 10 100) c.ma5_slope_score)))))) }

/-- Descending-score ordering of the final output
(`sort_values("score", ascending=False)`). -/
def scoreGeA (a b : CandA) : Prop := b.score ≤ a.score

instance (a b : CandA) : Decidable (scoreGeA a b) := by
  unfold scoreGeA
  infer_instance

/-- `PullbackRRStrategy.scan`: empty guard, per-ticker cascade over the
sorted tickers, cohort re-scoring, score-descending sort.  All empty
early returns of the source return an empty (columned) frame, modelled as
the empty list.  `cohortA` is the list of per-ticker survivors. -/
def cohortA (sq : ℚ → ℚ) (rows : List Row) (p : ScanParams) : List CandA :=
  (tickersSorted rows).filterMap (fun t => stepA sq p t (groupOf rows t))

/-- The `ret20` column of the surviving rows, the population over which
`rs_score` ranks. -/
def retsA (sq : ℚ → ℚ) (rows : List Row) (p : ScanParams) : List ℚ :=
  (cohortA sq rows p).map (fun c => c.ret20)

def scanA (sq : ℚ → ℚ) (rows : List Row) (p : ScanParams) : List CandA :=
  if rows = [] then []
  else ((cohortA sq rows p).map (fun c => finalizeA (retsA sq rows p) c)).insertionSort scoreGeA

/-- The "rising N days" requirement as the spec words it (followed from
the spec, not the source, which implements no such check): the 5-day
moving average strictly increased on each of the last `N` day-over-day
comparisons.  `ma5At l k` is the 5-day MA `k` trading days before the
as-of day. -/
def ma5At (l : List Row) (k : ℕ) : Option ℚ := rollMean 5 k (l.map (fun r => r.close))

/-- Spec-side predicate for claim C7 (see `ma5At`). -/
def specMa5RisingNDays (l : List Row) (N : ℕ) : Prop :=
  ∀ k < N, ((ma5At l (k + 1)).getD 0) < ((ma5At l k).getD 0)

instance (l : List Row) (N : ℕ) : Decidable (specMa5RisingNDays l N) := by
  unfold specMa5RisingNDays
  infer_instance


/-! ### `core/strategies/vol_compression_breakout.py` — Strategy B
(`VolCompressionBreakoutStrategy.scan`)

The market-cap snapshot `pykrx.stock.get_market_cap(...)["시가총액"]`
is external input; it is modelled as a lookup `capOf : ℕ → Option ℚ`,
with `none` for a ticker absent from the map (including the case where the
fetch raised and the map is empty).  The source reads `cap_map.get(t, 0)`,
so an absent ticker is treated as capitalisation `0`.  On an empty input
frame the source raises before any per-ticker work (`df["date"].max()`
on an empty/column-less frame: `KeyError`, or `NaT.strftime`:
`ValueError`); the embedding returns `Except.error .emptyPanel` there.
The `min_rr` gate of source line 244 is applied after the score
computation (as `stepB` over `stepBCore`); no computed value depends on
the gate, so the emitted rows are identical. -/

/-- Strategy B candidate stage. -/
inductive Stage where
  | WATCH : Stage
  | BREAKOUT : Stage
deriving DecidableEq

/-- The error Strategy B raises on an empty panel. -/
inductive BErr where
  | emptyPanel : BErr
deriving DecidableEq

/-- One output row of Strategy B (the source's result record). -/
structure CandB where
  ticker : ℕ
  date : ℕ
  stage : Stage
  entry : ℚ
  stop : ℚ
  target : ℚ
  risk : ℚ
  reward : ℚ
  rr : ℚ
  bb_width : ℚ
  bb_q20 : ℚ
  range20 : ℚ
  ma_gap : ℚ
  vol_ratio_5v20 : ℚ
  prev20_high : ℚ
  high_break : Bool
  close_hold : Bool
  vol_surge_ratio : ℚ
  ma20 : ℚ
  ma60 : ℚ
  ret20 : ℚ
  compression_score : ℚ
  trend_score : ℚ
  score : ℚ
deriving DecidableEq

instance : Inhabited CandB :=
  ⟨⟨0, 0, Stage.WATCH, 0, 0, 0, 0, 0, 0, 0, 0, 0, 0, 0, 0, false, false, 0, 0, 0, 0, 0, 0, 0⟩⟩

/-- `bb_width` series of one ticker: `4 * std20` at each index, `none`
where the 20-day rolling std of daily returns is undefined (pandas index
`i` uses the returns at indices `i-19 .. i` of the pct-change series,
which are `rets[i-20 .. i-1]` of the zero-based return list). -/
def bbSeriesOf (sq : ℚ → ℚ) (rets : List ℚ) (n : ℕ) : List (Option ℚ) :=
  (List.range n).map (fun i =>
    if i < 20 then none
    else some (qmul (cq 4 1) (sq (sampleVar ((rets.take i).drop (i - 20))))))

/-- The per-ticker as-of values of Strategy B, `none` when the `NaN`
check of source line 119 (`ma20`, `ma60`, `bb_width`, `prev20_high`)
fails.  All other quantities are total computations collected here:
`std60` (line 125), `prev_close` (line 132), the `bb_width` window,
quantile and persistence count (lines 146-157), `range20` (lines 103-104,
165), the volume aggregates (lines 98-99, 116, 168-170) and `ret20`
(line 110).  None of them depends on `ScanParams`. -/
structure AsofB where
  date : ℕ
  close : ℚ
  high : ℚ
  low : ℚ
  opn : ℚ
  volume : ℚ
  ma20 : ℚ
  ma60 : ℚ
  bb_width : ℚ
  prev20_high : ℚ
  std60 : ℚ
  prev_close : ℚ
  bb_q : ℚ
  bb_ok_5 : ℕ
  bb_window_len : ℕ
  range20v : ℚ
  vol_5 : ℚ
  vol_ma20v : ℚ
  vol_ma20_prev : Option ℚ
  ret20v : ℚ
deriving DecidableEq

/-- Extract the as-of record of one date-sorted ticker group. -/
def asofB (sq : ℚ → ℚ) (l : List Row) : Option AsofB :=
  let closes := l.map (fun r => r.close)
  let highs := l.map (fun r => r.high)
  let lows := l.map (fun r => r.low)
  let vols := l.map (fun r => r.volume)
  let n := l.length
  let rets := pctChanges closes
  let last := lastD l
  let bbs := bbSeriesOf sq rets n
  match rollMean 20 0 closes, rollMean 60 0 closes, bbs.getD (n - 1) none,
      rollMax 20 1 highs with
  | some ma20v, some ma60v, some bbw, some p20h =>
    let bb_window := (takeLast bbs 120).filterMap id
    let bb_q := pandasQuantile (cq 1 5) bb_window
    some ⟨last.date, last.close, last.high, last.low, last.opn, last.volume,
      ma20v, ma60v, bbw, p20h,
      sq (sampleVar (takeLast rets 60)), closes.getD (n - 2) 0,
      bb_q,
      (takeLast bbs 5).countP (fun x =>
        match x with
        | some v => decide (v ≤ bb_q)
        | none => false),
      bb_window.length,
      (if last.close = 0 then 1
       else match rollMax 20 0 highs, rollMin 20 0 lows with
         | some hh, some ll => qdiv (qsub hh ll) last.close
         | _, _ => 1),
      (rollMean 5 0 vols).getD 0, (rollMean 20 0 vols).getD 0,
      rollMean 20 1 vols,
      (if n < 21 then 0 else pctc (closes.getD (n - 21) 0) last.close)⟩
  | _, _, _, _ => none

/-- `day_range = _safe_div(high - low, close, 0)` (line 134). -/
def dayRangeB (a : AsofB) : ℚ :=
  if a.close = 0 then 0 else qdiv (qsub a.high a.low) a.close

/-- `gap_up = _safe_div(open - prev_close, prev_close, 0)` (line 138). -/
def gapUpB (a : AsofB) : ℚ :=
  if a.prev_close = 0 then 0 else qdiv (qsub a.opn a.prev_close) a.prev_close

/-- `ma_gap = |ma20 - ma60| / close if close != 0 else 1.0` (line 162). -/
def maGapB (a : AsofB) : ℚ :=
  if a.close = 0 then 1 else qdiv (qabs (qsub a.ma20 a.ma60)) a.close

/-- `vol_ratio_5v20 = _safe_div(vol_5, vol_ma20, 999.0)` (line 170). -/
def volRatioB (a : AsofB) : ℚ :=
  if a.vol_ma20v = 0 then cq 999 1 else qdiv a.vol_5 a.vol_ma20v

/-- `breakout_confirmed = high > prev20_high and close > prev20_high`
(lines 182-184). -/
def breakoutB (a : AsofB) : Prop := a.prev20_high < a.high ∧ a.prev20_high < a.close

instance (a : AsofB) : Decidable (breakoutB a) := by
  unfold breakoutB
  infer_instance

/-- `close_margin` (line 190). -/
def closeMarginB (a : AsofB) : ℚ :=
  if 0 < a.prev20_high then qsub (qdiv a.close a.prev20_high) 1 else 0

/-- `vol_surge_ratio = _safe_div(volume, vol_ma20_prev, 0)` (line 197),
with the `NaN` denominator also giving the default. -/
def volSurgeB (a : AsofB) : ℚ :=
  match a.vol_ma20_prev with
  | none => 0
  | some v => if v = 0 then 0 else qdiv a.volume v

/-- `vol_vs_5 = _safe_div(volume, vol_5_mean, 0)` (line 205). -/
def volVs5B (a : AsofB) : ℚ := if a.vol_5 = 0 then 0 else qdiv a.volume a.vol_5

/-- Stage decision (lines 216-219). -/
def stageBOf (a : AsofB) : Stage :=
  if breakoutB a ∧ cq 18 10 ≤ volSurgeB a then Stage.BREAKOUT else Stage.WATCH

/-- `stop = recent_low * (1 - stop_buffer)` over the last `stop_lookback`
lows (lines 226-227). -/
def stopB (l : List Row) (p : ScanParams) : ℚ :=
  qmul (qminList (takeLast (l.map (fun r => r.low)) p.stop_lookback)) (qsub 1 p.stop_buffer)

/-- `risk = entry - stop` (line 229). -/
def riskB (a : AsofB) (l : List Row) (p : ScanParams) : ℚ := qsub a.close (stopB l p)

/-- `target = max(recent high, entry + 2 * risk)` (lines 234-236). -/
def targetB (a : AsofB) (l : List Row) (p : ScanParams) : ℚ :=
  qmax (qmaxList (takeLast (l.map (fun r => r.high)) p.target_lookback))
    (qadd a.close (qmul (cq 2 1) (riskB a l p)))

/-- `reward = target - entry` (line 238). -/
def rewardB (a : AsofB) (l : List Row) (p : ScanParams) : ℚ :=
  qsub (targetB a l p) a.close

/-- `rr = reward / risk` (line 242). -/
def rrB (a : AsofB) (l : List Row) (p : ScanParams) : ℚ :=
  qdiv (rewardB a l p) (riskB a l p)

/-- `bb_score` (lines 253-257; the source clamps twice). -/
def bbScoreB (a : AsofB) : ℚ :=
  if 0 < a.bb_q then clamp01 (clamp01 (qsub 1 (qsub (qdiv a.bb_width a.bb_q) 1))) else 0

/-- `compression_score` (lines 259-263). -/
def compressionScoreB (a : AsofB) (p : ScanParams) : ℚ :=
  qadd (qmul (cq 35 100) (bbScoreB a))
    (qadd (qmul (cq 25 100) (clamp01 (qsub 1 (qdiv a.range20v (cq 10 100)))))
      (qadd (qmul (cq 20 100)
          (clamp01 (qsub 1 (qdiv (maGapB a) (qmax p.tolerance (cq 1 1000000000))))))
        (qmul (cq 20 100) (clamp01 (qsub 1 (qdiv (volRatioB a) (cq 85 100)))))))

/-- `trend_score` (lines 266-268). -/
def trendScoreB (a : AsofB) : ℚ :=
  qadd (qmul (cq 6 10) (if a.ma60 < a.ma20 then (1 : ℚ) else 0))
    (qmul (cq 4 10) (clamp01 (qdiv a.ret20v (cq 1 10))))

/-- `vol_surge_score` (line 272). -/
def volSurgeScoreB (a : AsofB) : ℚ :=
  if cq 18 10 ≤ volSurgeB a then clamp01 (qdiv (qsub (volSurgeB a) (cq 18 10)) 1) else 0

/-- `total01` (lines 275-283). -/
def total01B (a : AsofB) (p : ScanParams) : ℚ :=
  if stageBOf a = Stage.WATCH then
    qadd (qmul (cq 70 100) (compressionScoreB a p)) (qmul (cq 30 100) (trendScoreB a))
  else
    qadd (qmul (cq 45 100) (compressionScoreB a p))
      (qadd (qmul (cq 15 100) (trendScoreB a))
        (qadd (qmul (cq 20 100) (if breakoutB a then (1 : ℚ) else 0))
          (qmul (cq 20 100) (clamp01 (qadd (cq 5 10) (qmul (cq 5 10) (volSurgeScoreB a)))))))

/-- `score = 100 * clamp01(total01)` (line 285). -/
def scoreB (a : AsofB) (p : ScanParams) : ℚ := qmul (cq 100 1) (clamp01 (total01B a p))

/-- The Strategy B result record of one surviving ticker (lines 287-322). -/
def buildB (t : ℕ) (a : AsofB) (l : List Row) (p : ScanParams) : CandB :=
  ⟨t, a.date, stageBOf a, a.close, stopB l p, targetB a l p, riskB a l p, rewardB a l p,
    rrB a l p, a.bb_width, a.bb_q, a.range20v, maGapB a, volRatioB a, a.prev20_high,
    decide (a.prev20_high < a.high), decide (a.prev20_high < a.close),
    volSurgeB a, a.ma20, a.ma60, a.ret20v, compressionScoreB a p, trendScoreB a, scoreB a p⟩

/-- `value_ma20 = (close * volume).rolling(20).mean().iloc[-1]`
(source line 73); the under-20-rows default is unreachable behind the
140-row history guard. -/
def valueMa20B (l : List Row) : ℚ :=
  if 20 ≤ l.length
  then (rollMean 20 0 (l.map (fun r => qmul r.close r.volume))).getD 0
  else 0

/-- The conjunction of the per-ticker `continue` guards of Strategy B
after the as-of row is formed, in source order (lines 123-249); each
conjunct is the negation of one `continue` condition (`¬ (x < y)` written
`y ≤ x`, `¬ (risk ≤ 0)` written `0 < risk`, and
`¬ (b ∧ c)` written `b → ¬ c`). -/
def guardsB (a : AsofB) (l : List Row) (p : ScanParams) : Prop :=
  a.std60 ≤ cq 35 1000
  ∧ dayRangeB a ≤ cq 12 100
  ∧ gapUpB a ≤ cq 6 100
  ∧ 84 ≤ a.bb_window_len
  ∧ 4 ≤ a.bb_ok_5
  ∧ ((0 < a.bb_q ∧ a.bb_width ≤ a.bb_q) ∧ maGapB a ≤ p.tolerance
      ∧ a.range20v ≤ cq 10 100 ∧ volRatioB a ≤ cq 85 100)
  ∧ (breakoutB a → cq 1 100 ≤ closeMarginB a)
  ∧ (breakoutB a → cq 18 10 ≤ volSurgeB a ∧ cq 13 10 ≤ volVs5B a)
  ∧ 0 < riskB a l p
  ∧ 0 < rewardB a l p

instance (a : AsofB) (l : List Row) (p : ScanParams) : Decidable (guardsB a l p) := by
  unfold guardsB
  infer_instance

/-- Strategy B per ticker, everything except the `min_rr` gate: history
and liquidity filters, the `NaN` check, then the guard cascade
(`guardsB`), then the built result row. -/
def stepBCore (sq : ℚ → ℚ) (capOf : ℕ → Option ℚ) (p : ScanParams) (t : ℕ)
    (l : List Row) : Option CandB :=
  if l.length < 140 then none
  else if (capOf t).getD 0 < cq 300000000000 1 then none
  else if valueMa20B l < cq 3000000000 1 then none
  else
    match asofB sq l with
    | none => none
    | some a => if guardsB a l p then some (buildB t a l p) else none

/-- Strategy B per ticker: the core plus the `min_rr` gate, which applies
to `BREAKOUT` rows only (source line 244). -/
def stepB (sq : ℚ → ℚ) (capOf : ℕ → Option ℚ) (p : ScanParams) (t : ℕ)
    (l : List Row) : Option CandB :=
  match stepBCore sq capOf p t l with
  | none => none
  | some c => if c.stage = Stage.BREAKOUT ∧ c.rr < p.min_rr then none else some c

/-- Output ordering of Strategy B: `BREAKOUT` before `WATCH`
(`stage_rank`), then score descending. -/
def stageScoreGeB (a b : CandB) : Prop :=
  (a.stage = Stage.BREAKOUT ∧ b.stage = Stage.WATCH)
  ∨ (a.stage = b.stage ∧ b.score ≤ a.score)

instance (a b : CandB) : Decidable (stageScoreGeB a b) := by
  unfold stageScoreGeB
  infer_instance

/-- `VolCompressionBreakoutStrategy.scan`: raises on an empty panel (see
the section comment), otherwise runs the per-ticker pipeline over the
sorted tickers and sorts by `(stage_rank, -score)`. -/
def resultsB (sq : ℚ → ℚ) (capOf : ℕ → Option ℚ) (rows : List Row) (p : ScanParams) :
    List CandB :=
  (tickersSorted rows).filterMap (fun t => stepB sq capOf p t (groupOf rows t))

def scanB (sq : ℚ → ℚ) (capOf : ℕ → Option ℚ) (rows : List Row) (p : ScanParams) :
    Except BErr (List CandB) :=
  if rows = [] then Except.error BErr.emptyPanel
  else Except.ok ((resultsB sq capOf rows p).insertionSort stageScoreGeB)

/-- The candidate list of a Strategy B result, empty on the error case
(used to state per-row properties of the emitted rows). -/
def okListB : Except BErr (List CandB) → List CandB
  | Except.ok l => l
  | Except.error _ => []

/-! ### Concrete inputs used by the witnesses and counterexamples -/

/-- The identity map, used to instantiate the abstract `sqrt` parameter in
concrete witness evaluations (every theorem quantifies over `sq`). -/
def sqId : ℚ → ℚ := fun x => x

/-- Witness panel for Strategy A: one ticker, 120 days; close 100 for the
first 95 days then 102, flat volume, a high of 110 on day 110. -/
def panelA0 : List Row := (List.range 120).map (fun i =>
  let c : ℚ := if i ≤ 94 then cq 100 1 else cq 102 1
  Row.mk 1 i c (if i = 110 then cq 110 1 else c) c c (cq 1000 1))

/-- Default parameters (`base.py` defaults, `require_ma5_positive` off as
in the sidebar default). -/
def paramsA0 : ScanParams := ⟨cq 3 100, 10, cq 1 200, 20, cq 3 2, 0, false, 0⟩

/-- `paramsA0` with the spec's "rising N days" knob set to 3 (used by the
C7 counterexample). -/
def paramsA7 : ScanParams := ⟨cq 3 100, 10, cq 1 200, 20, cq 3 2, 3, false, 0⟩

/-- Witness panel for Strategy B: one ticker, 140 days; a ±0.5 oscillation
around 100 for 119 days, a quiet drift from 100 down to 99.525 with a
volume dry-up for 20 days, then a confirmed breakout day (close 101.5
above the prior 20-day high 100, volume surge to 2e8). -/
def panelB0 : List Row := (List.range 140).map (fun i =>
  if i ≤ 118 then
    let c : ℚ := if i % 2 = 0 then cq 199 2 else cq 201 2
    Row.mk 1 i c c c c (cq 100000000 1)
  else if i ≤ 138 then
    let c : ℚ := qsub (cq 100 1) (qmul (cq 1 40) (qofN (i - 119)))
    Row.mk 1 i c c c c (if i ≤ 134 then cq 100000000 1 else cq 20000000 1)
  else
    Row.mk 1 i (cq 996 10) (cq 1016 10) (cq 199 2) (cq 203 2) (cq 200000000 1))

/-- Market-cap lookup for the Strategy B witness: ticker 1 capitalised at
4e11 KRW, every other ticker absent from the snapshot. -/
def capB0 : ℕ → Option ℚ := fun t => if t = 1 then some (cq 400000000000 1) else none

/-- `paramsA0` with `min_rr` raised to 2 (C9 witness). -/
def paramsAr2 : ScanParams := ⟨cq 3 100, 10, cq 1 200, 20, cq 2 1, 0, false, 0⟩

/-- `paramsA0` with the MA5-slope requirement switched on with threshold
-1 (C7 witness). -/
def paramsA5 : ScanParams := ⟨cq 3 100, 10, cq 1 200, 20, cq 3 2, 0, true, cq (-1) 1⟩

/-- `paramsA0` with `min_rr` raised to 1.8 (C9 witness, Strategy B). -/
def paramsBr18 : ScanParams := ⟨cq 3 100, 10, cq 1 200, 20, cq 18 10, 0, false, 0⟩

/-- Signature arguments for the C6 check: as-of date 2026-02-27, KOSPI,
all tickers, Strategy A's label, the default market mode and the default
parameters (`min_rr = 1.5`). -/
def sigArgs15 : SigArgs :=
  ⟨"20260227", "KOSPI", none, "Pullback + Risk/Reward", "close_above_ma20",
    ⟨⟨3, 2⟩, 10, ⟨5, 3⟩, 20, ⟨15, 1⟩, 0⟩⟩

/-- `sigArgs15` with `min_rr` changed from 1.5 to 1.6. -/
def sigArgs16 : SigArgs :=
  ⟨"20260227", "KOSPI", none, "Pullback + Risk/Reward", "close_above_ma20",
    ⟨⟨3, 2⟩, 10, ⟨5, 3⟩, 20, ⟨16, 1⟩, 0⟩⟩

/-- `sigArgs15` with the single argument `market` changed from `"KOSPI"`
to `"kospi"` (a different string; `scan_signature` upper-cases it before
hashing). -/
def sigArgsLower : SigArgs :=
  ⟨"20260227", "kospi", none, "Pullback + Risk/Reward", "close_above_ma20",
    ⟨⟨3, 2⟩, 10, ⟨5, 3⟩, 20, ⟨15, 1⟩, 0⟩⟩

/-- The candidate Strategy A emits on `panelA0` under `paramsA0`. -/
def cA0 : CandA := (scanA sqId panelA0 paramsA0).headI

/-- The candidate Strategy A emits on `panelA0` under `paramsA7`
(`ma5_up_days = 3`), used by the C7 counterexample. -/
def cA7 : CandA := (scanA sqId panelA0 paramsA7).headI

/-- The candidate Strategy A emits on `panelA0` under `paramsA5`. -/
def cA5 : CandA := (scanA sqId panelA0 paramsA5).headI

/-- The BREAKOUT candidate Strategy B emits on `panelB0` under
`paramsA0`. -/
def cB0 : CandB := (okListB (scanB sqId capB0 panelB0 paramsA0)).headI

/-- The BREAKOUT candidate Strategy B emits on `panelB0` under
`paramsBr18`. -/
def cB18 : CandB := (okListB (scanB sqId capB0 panelB0 paramsBr18)).headI

/-! ## Theorems -/

theorem qadd_eq (a b : ℚ) : qadd a b = a + b := by
  have ha : (a.den : ℤ) ≠ 0 := Int.natCast_ne_zero.mpr a.den_nz
  have hb : (b.den : ℤ) ≠ 0 := Int.natCast_ne_zero.mpr b.den_nz
  rw [qadd]
  conv_rhs => rw [← Rat.num_divInt_den a, ← Rat.num_divInt_den b]
  rw [Rat.divInt_add_divInt _ _ ha hb]

theorem qmul_eq (a b : ℚ) : qmul a b = a * b := by
  have ha : (a.den : ℤ) ≠ 0 := Int.natCast_ne_zero.mpr a.den_nz
  have hb : (b.den : ℤ) ≠ 0 := Int.natCast_ne_zero.mpr b.den_nz
  rw [qmul]
  conv_rhs => rw [← Rat.num_divInt_den a, ← Rat.num_divInt_den b]
  rw [Rat.divInt_mul_divInt _ _ ha hb]

theorem qneg_eq (a : ℚ) : qneg a = -a := by
  rw [qneg]
  conv_rhs => rw [← Rat.num_divInt_den a]
  rw [← Rat.neg_divInt]

theorem qsub_eq (a b : ℚ) : qsub a b = a - b := by
  rw [qsub, qadd_eq, qneg_eq, sub_eq_add_neg]

theorem qdiv_eq (a b : ℚ) : qdiv a b = a / b := by
  rcases eq_or_ne b 0 with rfl | hb
  · rw [qdiv]
    norm_num
  · have hden : ((a.den : ℚ)) ≠ 0 := by
      exact_mod_cast (Nat.cast_ne_zero (R := ℚ)).mpr a.den_nz
    have hbden : ((b.den : ℚ)) ≠ 0 := by
      exact_mod_cast (Nat.cast_ne_zero (R := ℚ)).mpr b.den_nz
    have hbnum : ((b.num : ℚ)) ≠ 0 := by
      exact_mod_cast (Int.cast_ne_zero (α := ℚ)).mpr (Rat.num_ne_zero.mpr hb)
    have hA : a * (a.den : ℚ) = (a.num : ℚ) := by
      have h := div_mul_cancel₀ ((a.num : ℚ)) hden
      rw [Rat.num_div_den] at h
      exact h
    have hB : b * (b.den : ℚ) = (b.num : ℚ) := by
      have h := div_mul_cancel₀ ((b.num : ℚ)) hbden
      rw [Rat.num_div_den] at h
      exact h
    rw [qdiv, Rat.divInt_eq_div]
    push_cast
    rw [div_eq_div_iff (mul_ne_zero hden hbnum) hb]
    rw [← hA, ← hB]
    ring

theorem qabs_eq (a : ℚ) : qabs a = |a| := by
  rw [qabs]
  split
  · rw [qneg_eq, abs_of_neg]
    assumption
  · rw [abs_of_nonneg]
    linarith [not_lt.mp (by assumption : ¬ a < 0)]

theorem qmax_eq (a b : ℚ) : qmax a b = max a b := by
  rw [qmax, max_def]

theorem qmin_eq (a b : ℚ) : qmin a b = min a b := by
  rw [qmin, min_def]

theorem cq_eq (n : ℤ) (d : ℕ) : cq n d = (n : ℚ) / (d : ℚ) := by
  rw [cq, Rat.mkRat_eq_div]

theorem qofN_eq (n : ℕ) : qofN n = (n : ℚ) := by
  rw [qofN, Rat.mkRat_eq_div]
  norm_num

theorem clamp01_nonneg (x : ℚ) : 0 ≤ clamp01 x := by
  rw [clamp01]
  split_ifs with h1 h2
  · norm_num
  · norm_num
  · linarith [not_lt.mp h1]

theorem clamp01_le_one (x : ℚ) : clamp01 x ≤ 1 := by
  rw [clamp01]
  split_ifs with h1 h2
  · norm_num
  · norm_num
  · linarith [not_lt.mp h2]

theorem rankPct_nonneg (l : List ℚ) (x : ℚ) : 0 ≤ rankPct l x := by
  rw [rankPct]
  simp only [qdiv_eq, qadd_eq, qofN_eq]
  positivity

theorem countLtEq_le_length (l : List ℚ) (x : ℚ) :
    l.countP (fun y => decide (y < x)) + l.countP (fun y => decide (y = x)) ≤ l.length := by
  induction l with
  | nil => simp
  | cons a t ih =>
    simp only [List.countP_cons, List.length_cons, decide_eq_true_eq]
    have e1 : (if a < x then 1 else 0) + (if a = x then 1 else 0) ≤ 1 := by
      by_cases hlt : a < x
      · have hne : ¬ (a = x) := fun h => absurd (h ▸ hlt) (lt_irrefl x)
        simp [hlt, hne]
      · by_cases heq : a = x <;> simp [hlt, heq]
    omega

theorem rankPct_le_one (l : List ℚ) (x : ℚ) (hx : x ∈ l) : rankPct l x ≤ 1 := by
  rw [rankPct]
  simp only [qdiv_eq, qadd_eq, qofN_eq]
  have hlen : 0 < l.length := List.length_pos.mpr (List.ne_nil_of_mem hx)
  have heq1 : 1 ≤ l.countP (fun y => decide (y = x)) := by
    have : 0 < l.countP (fun y => decide (y = x)) := by
      rw [List.countP_pos_iff]
      exact ⟨x, hx, by simp⟩
    omega
  have hsum := countLtEq_le_length l x
  rw [div_le_one (by exact_mod_cast hlen)]
  push_cast
  have h2 : ((l.countP (fun y => decide (y = x)) : ℚ) + 1) / 2
      ≤ (l.countP (fun y => decide (y = x)) : ℚ) := by
    rw [div_le_iff₀ (by norm_num)]
    have : (1 : ℚ) ≤ (l.countP (fun y => decide (y = x)) : ℚ) := by exact_mod_cast heq1
    linarith
  have h3 : ((l.countP (fun y => decide (y < x)) : ℚ))
      + ((l.countP (fun y => decide (y = x)) : ℚ)) ≤ (l.length : ℚ) := by
    exact_mod_cast hsum
  linarith

/-! #### Merge lemmas (for claims C2 and C8) -/

theorem hasKey_eq_true_iff (k : ℕ × ℕ) (l : List Row) :
    hasKey k l = true ↔ ∃ y ∈ l, keyOf y = k := by
  simp [hasKey, List.any_eq_true]

theorem hasKey_append (k : ℕ × ℕ) (l₁ l₂ : List Row) :
    hasKey k (l₁ ++ l₂) = (hasKey k l₁ || hasKey k l₂) := by
  simp [hasKey, List.any_append]

theorem mem_of_mem_keepLast {y : Row} {l : List Row} (h : y ∈ keepLast l) : y ∈ l := by
  induction l with
  | nil => simpa [keepLast] using h
  | cons x xs ih =>
    rw [keepLast] at h
    split at h
    · exact List.mem_cons_of_mem x (ih h)
    · rcases List.mem_cons.mp h with rfl | h2
      · exact List.mem_cons_self _ _
      · exact List.mem_cons_of_mem x (ih h2)

theorem keepLast_keysNodup (l : List Row) : keysNodup (keepLast l) := by
  induction l with
  | nil => simp [keepLast, keysNodup]
  | cons x xs ih =>
    rw [keepLast]
    split
    · exact ih
    · rename_i hnk
      unfold keysNodup at ih ⊢
      simp only [List.map_cons, List.nodup_cons]
      refine ⟨?_, ih⟩
      intro hmem
      rcases List.mem_map.mp hmem with ⟨y, hy, hky⟩
      exact hnk ((hasKey_eq_true_iff _ _).mpr ⟨y, mem_of_mem_keepLast hy, hky⟩)

theorem keepLast_eq_self {l : List Row} (h : keysNodup l) : keepLast l = l := by
  induction l with
  | nil => rfl
  | cons x xs ih =>
    unfold keysNodup at h
    simp only [List.map_cons, List.nodup_cons] at h
    have hnk : ¬ hasKey (keyOf x) xs = true := by
      intro hk
      rcases (hasKey_eq_true_iff _ _).mp hk with ⟨y, hy, hky⟩
      exact h.1 (List.mem_map.mpr ⟨y, hy, hky⟩)
    rw [keepLast, if_neg hnk, ih h.2]

theorem keepLast_append (l₁ l₂ : List Row) : keepLast (l₁ ++ l₂) =
    (keepLast l₁).filter (fun x => !hasKey (keyOf x) l₂) ++ keepLast l₂ := by
  induction l₁ with
  | nil => simp [keepLast]
  | cons x xs ih =>
    simp only [List.cons_append, keepLast, hasKey_append]
    by_cases h1 : hasKey (keyOf x) xs = true
    · simp [hasKey_append, h1, ih]
    · by_cases h2 : hasKey (keyOf x) l₂ = true
      · simp [hasKey_append, h1, h2, ih, List.filter_cons]
      · simp [hasKey_append, h1, h2, ih, List.filter_cons]

theorem keyLe_antisymm {a b : ℕ × ℕ} (h1 : keyLe a b) (h2 : keyLe b a) : a = b := by
  unfold keyLe at h1 h2
  have h : a.1 = b.1 ∧ a.2 = b.2 := by omega
  exact Prod.ext h.1 h.2

theorem sortKey_perm (l : List Row) : List.Perm (sortKey l) l := List.perm_insertionSort _ l

theorem sortKey_sorted (l : List Row) : (sortKey l).Sorted rowLe :=
  List.sorted_insertionSort rowLe l

theorem keysNodup_of_perm {l₁ l₂ : List Row} (h : List.Perm l₁ l₂) (hn : keysNodup l₁) :
    keysNodup l₂ := ((h.map keyOf).nodup_iff).mp hn

theorem eq_of_perm_of_sorted_keys : ∀ {l₁ l₂ : List Row}, List.Perm l₁ l₂ → l₁.Sorted rowLe →
    l₂.Sorted rowLe → keysNodup l₁ → l₁ = l₂ := by
  intro l₁
  induction l₁ with
  | nil =>
    intro l₂ hp _ _ _
    exact (List.Perm.eq_nil hp.symm).symm
  | cons a t₁ ih =>
    intro l₂ hp hs1 hs2 hn
    cases l₂ with
    | nil => exact absurd (List.Perm.eq_nil hp) (by simp)
    | cons b t₂ =>
      have hnt : keysNodup t₁ := by
        unfold keysNodup at hn ⊢
        simpa using hn.of_cons
      by_cases hab : a = b
      · subst hab
        have hpt : List.Perm t₁ t₂ := hp.cons_inv
        rw [ih hpt (List.sorted_cons.mp hs1).2 (List.sorted_cons.mp hs2).2 hnt]
      · exfalso
        have ha2 : a ∈ t₂ := by
          rcases List.mem_cons.mp (hp.mem_iff.mp (List.mem_cons_self a t₁)) with h | h
          · exact absurd h hab
          · exact h
        have hb1 : b ∈ t₁ := by
          rcases List.mem_cons.mp (hp.mem_iff.mpr (List.mem_cons_self b t₂)) with h | h
          · exact absurd h.symm hab
          · exact h
        have h1 : rowLe a b := (List.sorted_cons.mp hs1).1 b hb1
        have h2 : rowLe b a := (List.sorted_cons.mp hs2).1 a ha2
        have hkey : keyOf a = keyOf b := keyLe_antisymm h1 h2
        unfold keysNodup at hn
        simp only [List.map_cons, List.nodup_cons] at hn
        exact hn.1 (List.mem_map.mpr ⟨b, hb1, hkey.symm⟩)

theorem keepLast_merge_perm (P S : List Row) :
    List.Perm (keepLast (mergeSnap P S ++ S)) (keepLast (P ++ S)) := by
  have hA_perm : List.Perm (mergeSnap P S) (keepLast (P ++ S)) := sortKey_perm _
  have hA_nodup : keysNodup (mergeSnap P S) :=
    keysNodup_of_perm hA_perm.symm (keepLast_keysNodup _)
  rw [keepLast_append (mergeSnap P S) S, keepLast_append P S,
    keepLast_eq_self hA_nodup]
  apply List.Perm.append_right
  have h1 := hA_perm.filter (fun x => !hasKey (keyOf x) S)
  rw [keepLast_append P S, List.filter_append] at h1
  have h2 : (keepLast S).filter (fun x => !hasKey (keyOf x) S) = [] := by
    rw [List.filter_eq_nil_iff]
    intro y hy
    simp only [Bool.not_eq_true', Bool.not_eq_false]
    exact (hasKey_eq_true_iff _ _).mpr ⟨y, mem_of_mem_keepLast hy, rfl⟩
  have h3 : ((keepLast P).filter (fun x => !hasKey (keyOf x) S)).filter
      (fun x => !hasKey (keyOf x) S) = (keepLast P).filter (fun x => !hasKey (keyOf x) S) := by
    rw [List.filter_filter]
    simp
  rw [h2, h3, List.append_nil] at h1
  exact h1

/-- Claim C2: for any panel `P` and any daily snapshot `S`, merging `S`
into `P` twice yields the same panel as merging it once —
`merge (merge P S) S = merge P S`, where `merge` appends, deduplicates on
the `(symbol, date)` key keeping the last occurrence, and re-sorts by
`(symbol, date)` (the merge core of `update_parquet_cache_for_market` and
`update_merged_parquet_from_daily`). -/
theorem c2_merge_idempotent (P S : List Row) :
    mergeSnap (mergeSnap P S) S = mergeSnap P S := by
  have hA_perm : List.Perm (mergeSnap P S) (keepLast (P ++ S)) := sortKey_perm _
  apply eq_of_perm_of_sorted_keys
  · exact (sortKey_perm _).trans ((keepLast_merge_perm P S).trans hA_perm.symm)
  · exact sortKey_sorted _
  · exact sortKey_sorted _
  · exact keysNodup_of_perm (sortKey_perm _).symm (keepLast_keysNodup _)

/-- Claim C8 (amended): the close-price filter runs only on the panel
returned to the caller — every row of the returned panel satisfies
`close > 0`. -/
theorem c8_returned_close_pos (cached newRows : List Row) (r : Row)
    (h : r ∈ updateCacheReturned cached newRows) : 0 < r.close := by
  unfold updateCacheReturned at h
  exact of_decide_eq_true (List.mem_filter.mp h).2

/-- Witness for `c8_returned_close_pos` at a concrete merge. -/
theorem c8_returned_close_pos_witness :
    (Row.mk 1 1 0 0 0 (cq 5 1) 0) ∈ updateCacheReturned [] [Row.mk 1 1 0 0 0 (cq 5 1) 0]
    ∧ 0 < (Row.mk 1 1 0 0 0 (cq 5 1) 0).close :=
  ⟨by decide, c8_returned_close_pos [] [Row.mk 1 1 0 0 0 (cq 5 1) 0] _ (by decide)⟩

/-- Counterexample to claim C8 as stated: the panels persisted to disk
are written before the close filter (`update_parquet_cache_for_market`)
or with no close filter at all (`update_merged_parquet_from_daily`), so a
merge of a snapshot containing a `close = 0` row persists that row. -/
theorem c8_counterexample :
    (Row.mk 1 1 0 0 0 0 0) ∈ updateCachePersisted [] [Row.mk 1 1 0 0 0 0 0]
    ∧ (Row.mk 1 1 0 0 0 0 0) ∈ updateMergedFromDailyPersisted [] [Row.mk 1 1 0 0 0 0 0]
    ∧ ¬ (0 < (Row.mk 1 1 0 0 0 0 0).close) := by
  refine ⟨by decide, by decide, by decide⟩

/-! #### Universe lemmas (claim C5) -/

theorem le_foldl_max (l : List ℕ) : ∀ a, a ≤ l.foldl max a ∧ ∀ x ∈ l, x ≤ l.foldl max a := by
  induction l with
  | nil => intro a; exact ⟨le_refl a, by simp⟩
  | cons y t ih =>
    intro a
    simp only [List.foldl_cons]
    rcases ih (max a y) with ⟨h1, h2⟩
    refine ⟨le_trans (le_max_left a y) h1, ?_⟩
    intro x hx
    rcases List.mem_cons.mp hx with rfl | hx2
    · exact le_trans (le_max_right a x) h1
    · exact h2 x hx2

theorem foldl_max_eq_or_mem (l : List ℕ) : ∀ a, l.foldl max a = a ∨ l.foldl max a ∈ l := by
  induction l with
  | nil =>
    intro a
    left
    rfl
  | cons x t ih =>
    intro a
    simp only [List.foldl_cons]
    rcases ih (max a x) with h | h
    · rw [h]
      rcases Nat.le_total a x with hle | hle
      · right
        rw [Nat.max_eq_right hle]
        exact List.mem_cons_self _ _
      · left
        exact Nat.max_eq_left hle
    · right
      exact List.mem_cons_of_mem _ h

theorem maxDate_mem {rows : List URow} (h : rows ≠ []) :
    ∃ r ∈ rows, r.date = maxDate rows := by
  unfold maxDate
  rcases foldl_max_eq_or_mem (rows.map (fun r => r.date)) 0 with h0 | hm
  · cases rows with
    | nil => exact absurd rfl h
    | cons a t =>
      refine ⟨a, List.mem_cons_self _ _, ?_⟩
      have hle := (le_foldl_max ((a :: t).map (fun r => r.date)) 0).2 a.date (by simp)
      omega
  · rcases List.mem_map.mp hm with ⟨r, hr, hd⟩
    exact ⟨r, hr, hd⟩

theorem maxDate_ge {rows : List URow} {r : URow} (hr : r ∈ rows) : r.date ≤ maxDate rows := by
  unfold maxDate
  exact (le_foldl_max (rows.map (fun q => q.date)) 0).2 r.date
    (List.mem_map.mpr ⟨r, hr, rfl⟩)

theorem dedupFirst_nodup_and_notin (l : List URow) : ∀ seen,
    ((dedupFirstByTicker seen l).map (fun r => r.ticker)).Nodup
    ∧ ∀ t ∈ (dedupFirstByTicker seen l).map (fun r => r.ticker), t ∉ seen := by
  induction l with
  | nil =>
    intro seen
    simp [dedupFirstByTicker]
  | cons x xs ih =>
    intro seen
    rw [dedupFirstByTicker]
    split
    · exact ih seen
    · rename_i hxs
      rcases ih (x.ticker :: seen) with ⟨h1, h2⟩
      simp only [List.map_cons, List.nodup_cons]
      refine ⟨⟨?_, h1⟩, ?_⟩
      · intro hmem
        exact (h2 _ hmem) (List.mem_cons_self _ _)
      · intro t ht
        rcases List.mem_cons.mp ht with rfl | ht2
        · exact hxs
        · intro hts
          exact (h2 _ ht2) (List.mem_cons_of_mem _ hts)

theorem dedupFirst_mem_iff (l : List URow) : ∀ seen t,
    (t ∈ (dedupFirstByTicker seen l).map (fun r => r.ticker)
      ↔ t ∈ l.map (fun r => r.ticker) ∧ t ∉ seen) := by
  induction l with
  | nil =>
    intro seen t
    simp [dedupFirstByTicker]
  | cons x xs ih =>
    intro seen t
    rw [dedupFirstByTicker]
    split
    · rename_i hxs
      rw [ih seen t]
      simp only [List.map_cons, List.mem_cons]
      constructor
      · rintro ⟨h1, h2⟩
        exact ⟨Or.inr h1, h2⟩
      · rintro ⟨h1, h2⟩
        rcases h1 with rfl | h1
        · exact absurd hxs h2
        · exact ⟨h1, h2⟩
    · rename_i hxs
      simp only [List.map_cons, List.mem_cons]
      rw [ih (x.ticker :: seen) t]
      constructor
      · rintro (rfl | ⟨h1, h2⟩)
        · exact ⟨Or.inl rfl, hxs⟩
        · refine ⟨Or.inr h1, ?_⟩
          intro hs
          exact h2 (List.mem_cons_of_mem _ hs)
      · rintro ⟨h1, h2⟩
        rcases h1 with rfl | h1
        · exact Or.inl rfl
        · by_cases hxt : t = x.ticker
          · exact Or.inl hxt
          · right
            refine ⟨h1, ?_⟩
            intro hc
            rcases List.mem_cons.mp hc with hcc | hcc
            · exact hxt hcc
            · exact h2 hcc

theorem distinctTickers_eq_card (rows : List URow) :
    distinctTickers rows = (rows.map (fun r => r.ticker)).toFinset.card := by
  unfold distinctTickers
  rw [List.card_toFinset]

theorem distinct_filter_contains (rows : List URow) (top : List ℕ) (hnd : top.Nodup)
    (hin : ∀ t ∈ top, ∃ r ∈ rows, r.ticker = t) :
    distinctTickers (rows.filter (fun r => top.contains r.ticker)) = top.length := by
  rw [distinctTickers_eq_card]
  have hset : ((rows.filter (fun r => top.contains r.ticker)).map (fun r => r.ticker)).toFinset
      = top.toFinset := by
    ext t
    simp only [List.mem_toFinset, List.mem_map]
    constructor
    · rintro ⟨r, hr, rfl⟩
      have := (List.mem_filter.mp hr).2
      exact (List.elem_iff).mp this
    · intro ht
      rcases hin t ht with ⟨r, hr, rfl⟩
      refine ⟨r, List.mem_filter.mpr ⟨hr, ?_⟩, rfl⟩
      exact (List.elem_iff).mpr ht
  rw [hset]
  exact List.toFinset_card_of_nodup hnd

theorem dedupFirst_length (snap : List URow) :
    (dedupFirstByTicker [] (snap.insertionSort rankGe)).length = distinctTickers snap := by
  set dd := dedupFirstByTicker [] (snap.insertionSort rankGe) with hdd
  have hnd : (dd.map (fun r => r.ticker)).Nodup := (dedupFirst_nodup_and_notin _ []).1
  have hlen : dd.length = (dd.map (fun r => r.ticker)).length := (List.length_map _ _).symm
  rw [hlen, ← List.toFinset_card_of_nodup hnd, distinctTickers_eq_card]
  congr 1
  ext t
  simp only [List.mem_toFinset]
  rw [hdd, dedupFirst_mem_iff]
  have hperm : List.Perm ((snap.insertionSort rankGe).map (fun r => r.ticker))
      (snap.map (fun r => r.ticker)) := (List.perm_insertionSort rankGe snap).map _
  constructor
  · rintro ⟨h1, _⟩
    exact hperm.mem_iff.mp h1
  · intro h1
    exact ⟨hperm.mem_iff.mpr h1, by simp⟩

/-- Claim C5 (amended): with a non-empty panel, a usable rank column and a
positive `top_n = N`, `apply_top_n` returns a panel whose distinct-symbol
count is `min N S` where `S` is the number of symbols present on the
as-of (maximum) date — not the number of symbols in the whole panel; with
`top_n` `None` or non-positive the panel is returned unchanged. -/
theorem c5_top_n_amended (rows : List URow) (N : ℤ) (hne : rows ≠ []) (hN : 0 < N) :
    distinctTickers (apply_top_n rows (some N) none).1
      = min N.toNat (distinctTickers (rows.filter (fun r => decide (r.date = maxDate rows))))
    ∧ (apply_top_n rows none none).1 = rows
    ∧ (∀ n : ℤ, n ≤ 0 → (apply_top_n rows (some n) none).1 = rows) := by
  refine ⟨?_, ?_, ?_⟩
  · unfold apply_top_n
    rw [if_neg hne]
    simp only [Option.getD]
    rw [if_neg (by omega : ¬ N ≤ 0)]
    have hsne : rows.filter (fun r => decide (r.date = maxDate rows)) ≠ [] := by
      rcases maxDate_mem hne with ⟨r, hr, hd⟩
      intro hc
      have : r ∈ rows.filter (fun r => decide (r.date = maxDate rows)) :=
        List.mem_filter.mpr ⟨hr, by simp [hd]⟩
      rw [hc] at this
      exact absurd this (List.not_mem_nil r)
    rw [if_neg hsne, if_neg hsne]
    set snap := rows.filter (fun r => decide (r.date = maxDate rows)) with hsnap
    set ranked := dedupFirstByTicker [] (snap.insertionSort rankGe) with hranked
    set top := ((ranked.take N.toNat).map (fun r => r.ticker)) with htop
    have hnd : top.Nodup := by
      rw [htop, List.map_take]
      exact ((dedupFirst_nodup_and_notin _ []).1).sublist (List.take_sublist _ _)
    have hin : ∀ t ∈ top, ∃ r ∈ rows, r.ticker = t := by
      intro t ht
      rw [htop, List.map_take] at ht
      have ht2 : t ∈ ranked.map (fun r => r.ticker) := List.mem_of_mem_take ht
      rw [hranked, dedupFirst_mem_iff] at ht2
      have hperm : List.Perm ((snap.insertionSort rankGe).map (fun r => r.ticker))
          (snap.map (fun r => r.ticker)) := (List.perm_insertionSort rankGe snap).map _
      rcases List.mem_map.mp (hperm.mem_iff.mp ht2.1) with ⟨r, hr, rfl⟩
      exact ⟨r, (List.mem_filter.mp hr).1, rfl⟩
    rw [distinct_filter_contains rows top hnd hin, htop, List.map_take,
      List.length_take, List.length_map, hranked, dedupFirst_length]
  · unfold apply_top_n
    rw [if_neg hne]
  · intro n hn
    unfold apply_top_n
    rw [if_neg hne]
    simp only [Option.getD]
    rw [if_pos hn]

/-- Witness for `c5_top_n_amended` on a concrete three-row panel
(tickers 1 and 2, but only ticker 1 present on the latest date). -/
theorem c5_top_n_amended_witness :
    ([URow.mk 1 1 (some (cq 5 1)), URow.mk 2 1 (some (cq 4 1)),
        URow.mk 1 2 (some (cq 5 1))] ≠ [] ∧ (0 : ℤ) < 2)
    ∧ distinctTickers (apply_top_n [URow.mk 1 1 (some (cq 5 1)),
        URow.mk 2 1 (some (cq 4 1)), URow.mk 1 2 (some (cq 5 1))] (some 2) none).1
      = min (2 : ℤ).toNat (distinctTickers
          ([URow.mk 1 1 (some (cq 5 1)), URow.mk 2 1 (some (cq 4 1)),
            URow.mk 1 2 (some (cq 5 1))].filter
            (fun r => decide (r.date = maxDate [URow.mk 1 1 (some (cq 5 1)),
              URow.mk 2 1 (some (cq 4 1)), URow.mk 1 2 (some (cq 5 1))])))) :=
  ⟨⟨by decide, by decide⟩,
    (c5_top_n_amended _ 2 (by decide) (by decide)).1⟩

/-- Counterexample to claim C5 as stated: on a panel with two symbols of
which only one has a row on the latest date, `top_n = 2` yields a panel
with one distinct symbol, not `min 2 (symbols in the panel) = 2`. -/
theorem c5_counterexample :
    distinctTickers (apply_top_n [URow.mk 1 1 (some (cq 5 1)),
        URow.mk 2 1 (some (cq 4 1)), URow.mk 1 2 (some (cq 5 1))] (some 2) none).1 = 1
    ∧ min 2 (distinctTickers [URow.mk 1 1 (some (cq 5 1)), URow.mk 2 1 (some (cq 4 1)),
        URow.mk 1 2 (some (cq 5 1))]) = 2 := by
  refine ⟨by decide, by decide⟩

/-! #### Strategy A extraction lemmas (claims C1, C4, C7, C9) -/

theorem finalizeA_fields (rets : List ℚ) (c : CandA) :
    (finalizeA rets c).ticker = c.ticker ∧ (finalizeA rets c).entry = c.entry
    ∧ (finalizeA rets c).stop = c.stop ∧ (finalizeA rets c).target = c.target
    ∧ (finalizeA rets c).rr = c.rr ∧ (finalizeA rets c).ret20 = c.ret20
    ∧ (finalizeA rets c).rr_pref = c.rr_pref ∧ (finalizeA rets c).trend_score = c.trend_score
    ∧ (finalizeA rets c).vol_score = c.vol_score ∧ (finalizeA rets c).vol_score2 = c.vol_score2
    ∧ (finalizeA rets c).ma5_slope_3d = c.ma5_slope_3d
    ∧ (finalizeA rets c).ma5_slope_score = c.ma5_slope_score
    ∧ (finalizeA rets c).rs_score = rankPct rets c.ret20 := by
  unfold finalizeA
  refine ⟨rfl, rfl, rfl, rfl, rfl, rfl, rfl, rfl, rfl, rfl, rfl, rfl, rfl⟩

theorem finalizeA_score (rets : List ℚ) (c : CandA) :
    (finalizeA rets c).score = qmul (cq 100 1)
      (qadd (qmul (cq 35 100) c.rr_pref)
        (qadd (qmul (cq 20 100) c.trend_score)
          (qadd (qmul (cq 15 100) c.vol_score)
            (qadd (qmul (cq 10 100) c.vol_score2)
              (qadd (qmul (cq 10 100) (rankPct rets c.ret20))
                (qmul (cq 10 100) c.ma5_slope_score)))))) := by
  simp only [finalizeA]

theorem mem_scanA {sq : ℚ → ℚ} {rows : List Row} {p : ScanParams} {c : CandA}
    (h : c ∈ scanA sq rows p) :
    ∃ c₀ ∈ cohortA sq rows p, c = finalizeA (retsA sq rows p) c₀ := by
  unfold scanA at h
  split at h
  · exact absurd h (List.not_mem_nil c)
  · have h2 := (List.perm_insertionSort scoreGeA _).mem_iff.mp h
    rcases List.mem_map.mp h2 with ⟨c₀, hc₀, he⟩
    exact ⟨c₀, hc₀, he.symm⟩

theorem mem_scanA_of {sq : ℚ → ℚ} {rows : List Row} {p : ScanParams} {c₀ : CandA}
    (hne : rows ≠ []) (hc : c₀ ∈ cohortA sq rows p) :
    finalizeA (retsA sq rows p) c₀ ∈ scanA sq rows p := by
  unfold scanA
  rw [if_neg hne]
  exact (List.perm_insertionSort scoreGeA _).mem_iff.mpr
    (List.mem_map.mpr ⟨c₀, hc, rfl⟩)

theorem scanA_ne_nil_rows {sq : ℚ → ℚ} {rows : List Row} {p : ScanParams} {c : CandA}
    (h : c ∈ scanA sq rows p) : rows ≠ [] := by
  intro hc
  rw [hc] at h
  simp [scanA] at h

theorem mem_cohortA {sq : ℚ → ℚ} {rows : List Row} {p : ScanParams} {c : CandA} :
    c ∈ cohortA sq rows p
      ↔ ∃ t ∈ tickersSorted rows, stepA sq p t (groupOf rows t) = some c := by
  unfold cohortA
  rw [List.mem_filterMap]

theorem stepA_eq_some {sq : ℚ → ℚ} {p : ScanParams} {t : ℕ} {l : List Row} {c : CandA}
    (h : stepA sq p t l = some c) :
    stepACore sq p t l = some c ∧ p.min_rr ≤ c.rr
    ∧ (p.require_ma5_positive = true → p.ma5_min_slope < c.ma5_slope_3d) := by
  unfold stepA at h
  split at h
  · exact absurd h (by simp)
  · rename_i c₀ heq
    split at h
    · exact absurd h (by simp)
    · split at h
      · exact absurd h (by simp)
      · rename_i h1 h2
        obtain rfl := Option.some.inj h
        refine ⟨heq, not_not.mp h1, ?_⟩
        intro hreq
        by_contra hg
        exact h2 ⟨hreq, hg⟩

theorem stepA_of_core {sq : ℚ → ℚ} {p : ScanParams} {t : ℕ} {l : List Row} {c : CandA}
    (hc : stepACore sq p t l = some c) (h1 : p.min_rr ≤ c.rr)
    (h2 : p.require_ma5_positive = true → p.ma5_min_slope < c.ma5_slope_3d) :
    stepA sq p t l = some c := by
  unfold stepA
  simp only [hc]
  rw [if_neg (not_not.mpr h1), if_neg]
  rintro ⟨hreq, hg⟩
  exact hg (h2 hreq)

theorem stepACore_props {sq : ℚ → ℚ} {p : ScanParams} {t : ℕ} {l : List Row} {c : CandA}
    (h : stepACore sq p t l = some c) :
    c.ticker = t
    ∧ 0 < qsub c.entry c.stop ∧ 0 < qsub c.target c.entry
    ∧ c.rr = qdiv (qsub c.target c.entry) (qsub c.entry c.stop)
    ∧ (∃ x, c.rr_pref = clamp01 x)
    ∧ (∃ x y, c.trend_score = qadd (qmul (cq 6 10) (clamp01 x)) (qmul (cq 4 10) (clamp01 y)))
    ∧ (∃ x, c.vol_score = clamp01 x)
    ∧ (∃ x, c.vol_score2 = clamp01 x)
    ∧ (∃ x, c.ma5_slope_score = clamp01 x) := by
  unfold stepACore at h
  split at h
  · exact absurd h (by simp)
  · split at h
    · exact absurd h (by simp)
    · rename_i a heq
      split at h
      · exact absurd h (by simp)
      · split at h
        · exact absurd h (by simp)
        · split at h
          · exact absurd h (by simp)
          · split at h
            · exact absurd h (by simp)
            · split at h
              · exact absurd h (by simp)
              · split at h
                · exact absurd h (by simp)
                · rename_i g6
                  obtain rfl := Option.some.inj h
                  have hrw := not_not.mp g6
                  simp only [buildA]
                  simp only [rrA, riskA, rewardA, entryA, stopA] at hrw ⊢
                  exact ⟨trivial, hrw.1, hrw.2, trivial, ⟨_, rfl⟩, ⟨_, _, rfl⟩,
                    ⟨_, rfl⟩, ⟨_, rfl⟩, ⟨_, rfl⟩⟩

/-! #### Strategy B extraction lemmas (claims C1, C4, C9, C10) -/

theorem mem_resultsB {sq : ℚ → ℚ} {capOf : ℕ → Option ℚ} {rows : List Row}
    {p : ScanParams} {c : CandB} :
    c ∈ resultsB sq capOf rows p
      ↔ ∃ t ∈ tickersSorted rows, stepB sq capOf p t (groupOf rows t) = some c := by
  unfold resultsB
  rw [List.mem_filterMap]

theorem scanB_ne_nil_rows {sq : ℚ → ℚ} {capOf : ℕ → Option ℚ} {rows : List Row}
    {p : ScanParams} {c : CandB} (h : c ∈ okListB (scanB sq capOf rows p)) :
    rows ≠ [] := by
  intro hc
  rw [hc] at h
  simp [scanB, okListB] at h

theorem mem_okListB {sq : ℚ → ℚ} {capOf : ℕ → Option ℚ} {rows : List Row}
    {p : ScanParams} {c : CandB} (h : c ∈ okListB (scanB sq capOf rows p)) :
    ∃ t ∈ tickersSorted rows, stepB sq capOf p t (groupOf rows t) = some c := by
  have hne := scanB_ne_nil_rows h
  unfold scanB at h
  rw [if_neg hne] at h
  simp only [okListB] at h
  exact mem_resultsB.mp ((List.perm_insertionSort stageScoreGeB _).mem_iff.mp h)

theorem mem_okListB_of {sq : ℚ → ℚ} {capOf : ℕ → Option ℚ} {rows : List Row}
    {p : ScanParams} {c : CandB} {t : ℕ} (hne : rows ≠ [])
    (ht : t ∈ tickersSorted rows) (hstep : stepB sq capOf p t (groupOf rows t) = some c) :
    c ∈ okListB (scanB sq capOf rows p) := by
  unfold scanB
  rw [if_neg hne]
  simp only [okListB]
  exact (List.perm_insertionSort stageScoreGeB _).mem_iff.mpr
    (mem_resultsB.mpr ⟨t, ht, hstep⟩)

theorem stepB_eq_some {sq : ℚ → ℚ} {capOf : ℕ → Option ℚ} {p : ScanParams} {t : ℕ}
    {l : List Row} {c : CandB} (h : stepB sq capOf p t l = some c) :
    stepBCore sq capOf p t l = some c
    ∧ (c.stage = Stage.BREAKOUT → p.min_rr ≤ c.rr) := by
  unfold stepB at h
  split at h
  · exact absurd h (by simp)
  · rename_i c₀ heq
    split at h
    · exact absurd h (by simp)
    · rename_i hg
      obtain rfl := Option.some.inj h
      refine ⟨heq, ?_⟩
      intro hs
      by_contra hlt
      exact hg ⟨hs, not_le.mp hlt⟩

theorem stepB_of_core {sq : ℚ → ℚ} {capOf : ℕ → Option ℚ} {p : ScanParams} {t : ℕ}
    {l : List Row} {c : CandB} (hc : stepBCore sq capOf p t l = some c)
    (h1 : c.stage = Stage.BREAKOUT → p.min_rr ≤ c.rr) :
    stepB sq capOf p t l = some c := by
  unfold stepB
  simp only [hc]
  rw [if_neg]
  rintro ⟨hs, hlt⟩
  exact absurd (h1 hs) (not_le.mpr hlt)

theorem stepBCore_props {sq : ℚ → ℚ} {capOf : ℕ → Option ℚ} {p : ScanParams} {t : ℕ}
    {l : List Row} {c : CandB} (h : stepBCore sq capOf p t l = some c) :
    c.ticker = t
    ∧ c.risk = qsub c.entry c.stop ∧ c.reward = qsub c.target c.entry
    ∧ 0 < c.risk ∧ 0 < c.reward
    ∧ c.rr = qdiv c.reward c.risk
    ∧ (∃ a, c.compression_score = compressionScoreB a p
        ∧ c.trend_score = trendScoreB a ∧ c.score = scoreB a p) := by
  unfold stepBCore at h
  split at h
  · exact absurd h (by simp)
  · split at h
    · exact absurd h (by simp)
    · split at h
      · exact absurd h (by simp)
      · split at h
        · exact absurd h (by simp)
        · rename_i a heq
          split at h
          · rename_i hg
            obtain rfl := Option.some.inj h
            obtain ⟨-, -, -, -, -, -, -, -, hrisk, hrew⟩ := hg
            refine ⟨?_, ?_, ?_, ?_, ?_, ?_, ?_⟩
            · simp only [buildB]
            · simp only [buildB, riskB]
            · simp only [buildB, rewardB]
            · simp only [buildB]
              exact hrisk
            · simp only [buildB]
              exact hrew
            · simp only [buildB, rrB]
            · simp only [buildB]
              exact ⟨a, rfl, rfl, rfl⟩
          · exact absurd h (by simp)

theorem stepBCore_cap_none {sq : ℚ → ℚ} {capOf : ℕ → Option ℚ} {p : ScanParams}
    {t : ℕ} {l : List Row} (hcap : capOf t = none) :
    stepBCore sq capOf p t l = none := by
  unfold stepBCore
  rw [hcap]
  split
  · rfl
  · have h0 : (Option.getD (none : Option ℚ) 0) < cq 300000000000 1 := by decide
    rw [if_pos h0]

/-! #### Parameter-dependence lemmas (claims C7 and C9) -/

theorem stepACore_params_irrel (sq : ℚ → ℚ) (t : ℕ) (l : List Row) (tol sb : ℚ)
    (slb tlb : ℕ) (mr mr' ms ms' : ℚ) (u u' : ℤ) (rq rq' : Bool) :
    stepACore sq ⟨tol, slb, sb, tlb, mr, u, rq, ms⟩ t l
      = stepACore sq ⟨tol, slb, sb, tlb, mr', u', rq', ms'⟩ t l := rfl

theorem stepA_mud_irrel (sq : ℚ → ℚ) (t : ℕ) (l : List Row) (tol sb mr ms : ℚ)
    (slb tlb : ℕ) (u u' : ℤ) (rq : Bool) :
    stepA sq ⟨tol, slb, sb, tlb, mr, u, rq, ms⟩ t l
      = stepA sq ⟨tol, slb, sb, tlb, mr, u', rq, ms⟩ t l := rfl

theorem scanA_mud_irrel (sq : ℚ → ℚ) (rows : List Row) (tol sb mr ms : ℚ)
    (slb tlb : ℕ) (u u' : ℤ) (rq : Bool) :
    scanA sq rows ⟨tol, slb, sb, tlb, mr, u, rq, ms⟩
      = scanA sq rows ⟨tol, slb, sb, tlb, mr, u', rq, ms⟩ := rfl

theorem stepBCore_params_irrel (sq : ℚ → ℚ) (capOf : ℕ → Option ℚ) (t : ℕ)
    (l : List Row) (tol sb : ℚ) (slb tlb : ℕ) (mr mr' ms ms' : ℚ) (u u' : ℤ)
    (rq rq' : Bool) :
    stepBCore sq capOf ⟨tol, slb, sb, tlb, mr, u, rq, ms⟩ t l
      = stepBCore sq capOf ⟨tol, slb, sb, tlb, mr', u', rq', ms'⟩ t l := rfl

/-! #### Weighted-sum bound helpers (claim C4) -/

theorem wsum2_unit {a b : ℚ} (x y : ℚ) (ha : 0 ≤ a) (hb : 0 ≤ b) (hab : a + b ≤ 1)
    (hx : 0 ≤ x) (hx1 : x ≤ 1) (hy : 0 ≤ y) (hy1 : y ≤ 1) :
    0 ≤ qadd (qmul a x) (qmul b y) ∧ qadd (qmul a x) (qmul b y) ≤ 1 := by
  rw [qadd_eq, qmul_eq, qmul_eq]
  have h1 : a * x ≤ a * 1 := mul_le_mul_of_nonneg_left hx1 ha
  have h2 : b * y ≤ b * 1 := mul_le_mul_of_nonneg_left hy1 hb
  rw [mul_one] at h1 h2
  exact ⟨add_nonneg (mul_nonneg ha hx) (mul_nonneg hb hy), by linarith⟩

theorem wsum4_unit (x1 x2 x3 x4 : ℚ)
    (h1 : 0 ≤ x1) (h1' : x1 ≤ 1) (h2 : 0 ≤ x2) (h2' : x2 ≤ 1)
    (h3 : 0 ≤ x3) (h3' : x3 ≤ 1) (h4 : 0 ≤ x4) (h4' : x4 ≤ 1) :
    0 ≤ qadd (qmul (cq 35 100) x1) (qadd (qmul (cq 25 100) x2)
        (qadd (qmul (cq 20 100) x3) (qmul (cq 20 100) x4)))
    ∧ qadd (qmul (cq 35 100) x1) (qadd (qmul (cq 25 100) x2)
        (qadd (qmul (cq 20 100) x3) (qmul (cq 20 100) x4))) ≤ 1 := by
  simp only [qadd_eq, qmul_eq, cq_eq]
  push_cast
  constructor
  · nlinarith
  · nlinarith

theorem scale100_bounds (s : ℚ) (h0 : 0 ≤ s) (h1 : s ≤ 1) :
    0 ≤ qmul (cq 100 1) s ∧ qmul (cq 100 1) s ≤ 100 := by
  rw [qmul_eq, cq_eq]
  push_cast
  constructor
  · nlinarith
  · nlinarith

theorem scoreA_formula_bounds (x1 x2 x3 x4 x5 x6 : ℚ)
    (h1 : 0 ≤ x1) (h1' : x1 ≤ 1) (h2 : 0 ≤ x2) (h2' : x2 ≤ 1)
    (h3 : 0 ≤ x3) (h3' : x3 ≤ 1) (h4 : 0 ≤ x4) (h4' : x4 ≤ 1)
    (h5 : 0 ≤ x5) (h5' : x5 ≤ 1) (h6 : 0 ≤ x6) (h6' : x6 ≤ 1) :
    0 ≤ qmul (cq 100 1) (qadd (qmul (cq 35 100) x1) (qadd (qmul (cq 20 100) x2)
        (qadd (qmul (cq 15 100) x3) (qadd (qmul (cq 10 100) x4)
          (qadd (qmul (cq 10 100) x5) (qmul (cq 10 100) x6))))))
    ∧ qmul (cq 100 1) (qadd (qmul (cq 35 100) x1) (qadd (qmul (cq 20 100) x2)
        (qadd (qmul (cq 15 100) x3) (qadd (qmul (cq 10 100) x4)
          (qadd (qmul (cq 10 100) x5) (qmul (cq 10 100) x6)))))) ≤ 100 := by
  simp only [qmul_eq, qadd_eq, cq_eq]
  push_cast
  constructor
  · nlinarith
  · nlinarith

theorem bbScoreB_bounds (a : AsofB) : 0 ≤ bbScoreB a ∧ bbScoreB a ≤ 1 := by
  unfold bbScoreB
  split
  · exact ⟨clamp01_nonneg _, clamp01_le_one _⟩
  · norm_num

theorem trendScoreB_bounds (a : AsofB) : 0 ≤ trendScoreB a ∧ trendScoreB a ≤ 1 := by
  unfold trendScoreB
  refine wsum2_unit _ _ ?_ ?_ ?_ ?_ ?_ ?_ ?_
  · norm_num [cq_eq]
  · norm_num [cq_eq]
  · norm_num [cq_eq]
  · split <;> norm_num
  · split <;> norm_num
  · exact clamp01_nonneg _
  · exact clamp01_le_one _

theorem compressionScoreB_bounds (a : AsofB) (p : ScanParams) :
    0 ≤ compressionScoreB a p ∧ compressionScoreB a p ≤ 1 := by
  unfold compressionScoreB
  exact wsum4_unit _ _ _ _ (bbScoreB_bounds a).1 (bbScoreB_bounds a).2
    (clamp01_nonneg _) (clamp01_le_one _) (clamp01_nonneg _) (clamp01_le_one _)
    (clamp01_nonneg _) (clamp01_le_one _)

theorem scoreB_bounds (a : AsofB) (p : ScanParams) :
    0 ≤ scoreB a p ∧ scoreB a p ≤ 100 := by
  unfold scoreB
  exact scale100_bounds _ (clamp01_nonneg _) (clamp01_le_one _)

theorem mem_retsA {sq : ℚ → ℚ} {rows : List Row} {p : ScanParams} {c : CandA}
    (h : c ∈ cohortA sq rows p) : c.ret20 ∈ retsA sq rows p := by
  unfold retsA
  exact List.mem_map.mpr ⟨c, h, rfl⟩

/-- Claim C1: every candidate emitted by Strategy A, and every candidate
of stage BREAKOUT emitted by Strategy B, satisfies `entry > stop`,
`target > entry` and `(target - entry) / (entry - stop) ≥ min_rr` (the
embedding computes in exact rationals, so no floating tolerance is
needed).  The look-back hypotheses keep the statement in the range where
the rational model of the pandas `min`/`max` is faithful (an empty
look-back window would produce `NaN` levels in the source). -/
theorem c1_risk_reward (sq : ℚ → ℚ) (capOf : ℕ → Option ℚ) (rows : List Row)
    (p : ScanParams) (h1 : 0 < p.stop_lookback) (h2 : 0 < p.target_lookback) :
    (∀ c ∈ scanA sq rows p,
      c.stop < c.entry ∧ c.entry < c.target
      ∧ p.min_rr ≤ (c.target - c.entry) / (c.entry - c.stop))
    ∧ (∀ c ∈ okListB (scanB sq capOf rows p), c.stage = Stage.BREAKOUT →
      c.stop < c.entry ∧ c.entry < c.target
      ∧ p.min_rr ≤ (c.target - c.entry) / (c.entry - c.stop)) := by
  constructor
  · intro c hc
    obtain ⟨c₀, hc₀, rfl⟩ := mem_scanA hc
    obtain ⟨t, ht, hstep⟩ := mem_cohortA.mp hc₀
    obtain ⟨hcore, hminrr, -⟩ := stepA_eq_some hstep
    obtain ⟨-, hrisk, hrew, hrreq, -⟩ := stepACore_props hcore
    obtain ⟨-, he, hs, htg, hrr, -⟩ := finalizeA_fields (retsA sq rows p) c₀
    rw [he, hs, htg]
    rw [qsub_eq] at hrisk hrew
    have hfrac : (c₀.target - c₀.entry) / (c₀.entry - c₀.stop) = c₀.rr := by
      rw [hrreq, qdiv_eq, qsub_eq, qsub_eq]
    refine ⟨by linarith, by linarith, ?_⟩
    rw [hfrac]
    exact hminrr
  · intro c hc hstage
    obtain ⟨t, ht, hstep⟩ := mem_okListB hc
    obtain ⟨hcore, hgate⟩ := stepB_eq_some hstep
    obtain ⟨-, hre, hrw, hrisk, hrew, hrr, -⟩ := stepBCore_props hcore
    rw [hre, qsub_eq] at hrisk
    rw [hrw, qsub_eq] at hrew
    have hfrac : (c.target - c.entry) / (c.entry - c.stop) = c.rr := by
      rw [hrr, hrw, hre, qdiv_eq, qsub_eq, qsub_eq]
    refine ⟨by linarith, by linarith, ?_⟩
    rw [hfrac]
    exact hgate hstage

/-- Witness for `c1_risk_reward` on the concrete breakout panel. -/
theorem c1_risk_reward_witness :
    (∀ c ∈ scanA sqId panelB0 paramsA0,
      c.stop < c.entry ∧ c.entry < c.target
      ∧ paramsA0.min_rr ≤ (c.target - c.entry) / (c.entry - c.stop))
    ∧ (∀ c ∈ okListB (scanB sqId capB0 panelB0 paramsA0), c.stage = Stage.BREAKOUT →
      c.stop < c.entry ∧ c.entry < c.target
      ∧ paramsA0.min_rr ≤ (c.target - c.entry) / (c.entry - c.stop)) :=
  c1_risk_reward sqId capB0 panelB0 paramsA0 (by decide) (by decide)

/-- Claim C3 (amended): on an empty panel Strategy A returns an empty
candidate list, but Strategy B raises (modelled as `Except.error`). -/
theorem c3_empty_scan_amended (sq : ℚ → ℚ) (capOf : ℕ → Option ℚ) (p : ScanParams) :
    scanA sq [] p = [] ∧ scanB sq capOf [] p = Except.error BErr.emptyPanel :=
  ⟨rfl, rfl⟩

/-- Counterexample to claim C3 as stated: Strategy B on the empty panel
does not return an empty list — it fails (`df["date"].max()` /
`strftime` on an empty frame raises before any per-ticker work). -/
theorem c3_counterexample :
    scanB sqId capB0 [] paramsA0 = Except.error BErr.emptyPanel := rfl

/-- Claim C4: every component sub-score of an emitted candidate lies in
`[0, 1]` (Strategy A: `rr_pref`, `trend_score`, `vol_score`, `vol_score2`,
`rs_score`, `ma5_slope_score`; Strategy B: `compression_score`,
`trend_score`), and every final `score` lies in `[0, 100]`. -/
theorem c4_score_bounds (sq : ℚ → ℚ) (capOf : ℕ → Option ℚ) (rows : List Row)
    (p : ScanParams) :
    (∀ c ∈ scanA sq rows p,
      (0 ≤ c.rr_pref ∧ c.rr_pref ≤ 1) ∧ (0 ≤ c.trend_score ∧ c.trend_score ≤ 1)
      ∧ (0 ≤ c.vol_score ∧ c.vol_score ≤ 1) ∧ (0 ≤ c.vol_score2 ∧ c.vol_score2 ≤ 1)
      ∧ (0 ≤ c.rs_score ∧ c.rs_score ≤ 1)
      ∧ (0 ≤ c.ma5_slope_score ∧ c.ma5_slope_score ≤ 1)
      ∧ (0 ≤ c.score ∧ c.score ≤ 100))
    ∧ (∀ c ∈ okListB (scanB sq capOf rows p),
      (0 ≤ c.compression_score ∧ c.compression_score ≤ 1)
      ∧ (0 ≤ c.trend_score ∧ c.trend_score ≤ 1)
      ∧ (0 ≤ c.score ∧ c.score ≤ 100)) := by
  constructor
  · intro c hc
    obtain ⟨c₀, hc₀, rfl⟩ := mem_scanA hc
    obtain ⟨t, ht, hstep⟩ := mem_cohortA.mp hc₀
    obtain ⟨hcore, -, -⟩ := stepA_eq_some hstep
    obtain ⟨-, -, -, -, ⟨x1, hx1⟩, ⟨x2, x3, hx23⟩, ⟨x4, hx4⟩, ⟨x5, hx5⟩, ⟨x6, hx6⟩⟩ :=
      stepACore_props hcore
    obtain ⟨-, -, -, -, -, -, hpref, htr, hvs, hvs2, -, hsl, hrs⟩ :=
      finalizeA_fields (retsA sq rows p) c₀
    have hrs0 := rankPct_nonneg (retsA sq rows p) c₀.ret20
    have hrs1 := rankPct_le_one (retsA sq rows p) c₀.ret20 (mem_retsA hc₀)
    have hb1 : 0 ≤ c₀.rr_pref ∧ c₀.rr_pref ≤ 1 := by
      rw [hx1]
      exact ⟨clamp01_nonneg _, clamp01_le_one _⟩
    have hb2 : 0 ≤ c₀.trend_score ∧ c₀.trend_score ≤ 1 := by
      rw [hx23]
      exact wsum2_unit _ _ (by norm_num [cq_eq]) (by norm_num [cq_eq]) (by norm_num [cq_eq])
        (clamp01_nonneg _) (clamp01_le_one _) (clamp01_nonneg _) (clamp01_le_one _)
    have hb3 : 0 ≤ c₀.vol_score ∧ c₀.vol_score ≤ 1 := by
      rw [hx4]
      exact ⟨clamp01_nonneg _, clamp01_le_one _⟩
    have hb4 : 0 ≤ c₀.vol_score2 ∧ c₀.vol_score2 ≤ 1 := by
      rw [hx5]
      exact ⟨clamp01_nonneg _, clamp01_le_one _⟩
    have hb6 : 0 ≤ c₀.ma5_slope_score ∧ c₀.ma5_slope_score ≤ 1 := by
      rw [hx6]
      exact ⟨clamp01_nonneg _, clamp01_le_one _⟩
    refine ⟨?_, ?_, ?_, ?_, ?_, ?_, ?_⟩
    · rw [hpref]
      exact hb1
    · rw [htr]
      exact hb2
    · rw [hvs]
      exact hb3
    · rw [hvs2]
      exact hb4
    · rw [hrs]
      exact ⟨hrs0, hrs1⟩
    · rw [hsl]
      exact hb6
    · rw [finalizeA_score]
      exact scoreA_formula_bounds _ _ _ _ _ _ hb1.1 hb1.2 hb2.1 hb2.2 hb3.1 hb3.2
        hb4.1 hb4.2 hrs0 hrs1 hb6.1 hb6.2
  · intro c hc
    obtain ⟨t, ht, hstep⟩ := mem_okListB hc
    obtain ⟨hcore, -⟩ := stepB_eq_some hstep
    obtain ⟨-, -, -, -, -, -, a, hcs, hts, hsc⟩ := stepBCore_props hcore
    refine ⟨?_, ?_, ?_⟩
    · rw [hcs]
      exact compressionScoreB_bounds a p
    · rw [hts]
      exact trendScoreB_bounds a
    · rw [hsc]
      exact scoreB_bounds a p

set_option maxRecDepth 4000000 in
/-- Counterexample to claim C6 as stated: changing a single argument does
not always change the signature.  `scan_signature` upper-cases the market
argument (`str(market).upper()`) before serialising, so two argument
tuples that are identical except for the letter case of `market`
(`"kospi"` vs `"KOSPI"` — different strings, hence a changed argument)
produce the identical signature. -/
theorem c6_counterexample :
    sigArgsLower.market ≠ sigArgs15.market
    ∧ sigArgsLower.latest_date = sigArgs15.latest_date
    ∧ sigArgsLower.top_n = sigArgs15.top_n
    ∧ sigArgsLower.strategy_label = sigArgs15.strategy_label
    ∧ sigArgsLower.market_mode = sigArgs15.market_mode
    ∧ sigArgsLower.params = sigArgs15.params
    ∧ scan_signature sigArgsLower = scan_signature sigArgs15 := by decide

set_option maxRecDepth 4000000 in
/-- Claim C6 (amended): the cache signature is deterministic — identical
arguments give the identical signature string — and the exemplified
single-argument change, `min_rr` from 1.5 to 1.6 with every other
argument and every other params field fixed, changes the signature.
Sensitivity does not hold for every single-argument change: the market
argument is hashed case-insensitively (see `c6_counterexample`), and at
signature (MD5) level no universal collision-freeness over all argument
changes is provable. -/
theorem c6_cache_signature_amended (a b : SigArgs) (h : a = b) :
    scan_signature a = scan_signature b
    ∧ (sigArgs15.params.min_rr ≠ sigArgs16.params.min_rr
        ∧ sigArgs15.latest_date = sigArgs16.latest_date
        ∧ sigArgs15.market = sigArgs16.market
        ∧ sigArgs15.top_n = sigArgs16.top_n
        ∧ sigArgs15.strategy_label = sigArgs16.strategy_label
        ∧ sigArgs15.market_mode = sigArgs16.market_mode
        ∧ sigArgs15.params.tolerance = sigArgs16.params.tolerance
        ∧ sigArgs15.params.stop_lookback = sigArgs16.params.stop_lookback
        ∧ sigArgs15.params.stop_buffer = sigArgs16.params.stop_buffer
        ∧ sigArgs15.params.target_lookback = sigArgs16.params.target_lookback
        ∧ sigArgs15.params.ma5_up_days = sigArgs16.params.ma5_up_days
        ∧ scan_signature sigArgs15 ≠ scan_signature sigArgs16) :=
  ⟨congrArg scan_signature h, by decide⟩

/-- Witness for `c6_cache_signature_amended` at the concrete default
arguments. -/
theorem c6_cache_signature_amended_witness :
    scan_signature sigArgs15 = scan_signature sigArgs15
    ∧ (sigArgs15.params.min_rr ≠ sigArgs16.params.min_rr
        ∧ sigArgs15.latest_date = sigArgs16.latest_date
        ∧ sigArgs15.market = sigArgs16.market
        ∧ sigArgs15.top_n = sigArgs16.top_n
        ∧ sigArgs15.strategy_label = sigArgs16.strategy_label
        ∧ sigArgs15.market_mode = sigArgs16.market_mode
        ∧ sigArgs15.params.tolerance = sigArgs16.params.tolerance
        ∧ sigArgs15.params.stop_lookback = sigArgs16.params.stop_lookback
        ∧ sigArgs15.params.stop_buffer = sigArgs16.params.stop_buffer
        ∧ sigArgs15.params.target_lookback = sigArgs16.params.target_lookback
        ∧ sigArgs15.params.ma5_up_days = sigArgs16.params.ma5_up_days
        ∧ scan_signature sigArgs15 ≠ scan_signature sigArgs16) :=
  c6_cache_signature_amended sigArgs15 sigArgs15 rfl

set_option maxRecDepth 1000000 in
/-- Counterexample to claim C7 as stated: with `ma5_up_days = 3` (in the
claimed active range 1..5) Strategy A emits a candidate whose 5-day
moving average was not strictly increasing on any of the last 3
day-over-day comparisons — the `ma5_up_days` field is never read by the
scan. -/
theorem c7_counterexample :
    cA7 ∈ scanA sqId panelA0 paramsA7
    ∧ paramsA7.ma5_up_days = 3
    ∧ (1 : ℤ) ≤ paramsA7.ma5_up_days ∧ paramsA7.ma5_up_days ≤ 5
    ∧ ¬ specMa5RisingNDays (groupOf panelA0 1) 3 := by decide

/-- Claim C7 (amended): the scan output is invariant under `ma5_up_days`
(the knob is never read), and the MA5 condition that is actually
implemented is the optional slope gate: when `require_ma5_positive` is
set, every emitted candidate satisfies
`ma5_min_slope < ma5_slope_3d`. -/
theorem c7_ma5_amended (sq : ℚ → ℚ) (rows : List Row) (tol sb mr ms : ℚ)
    (slb tlb : ℕ) (u u' : ℤ) (rq : Bool) :
    scanA sq rows ⟨tol, slb, sb, tlb, mr, u, rq, ms⟩
      = scanA sq rows ⟨tol, slb, sb, tlb, mr, u', rq, ms⟩
    ∧ ∀ c ∈ scanA sq rows ⟨tol, slb, sb, tlb, mr, u, rq, ms⟩,
        rq = true → ms < c.ma5_slope_3d := by
  refine ⟨scanA_mud_irrel sq rows tol sb mr ms slb tlb u u' rq, ?_⟩
  intro c hc hrq
  obtain ⟨c₀, hc₀, rfl⟩ := mem_scanA hc
  obtain ⟨t, ht, hstep⟩ := mem_cohortA.mp hc₀
  obtain ⟨-, -, hgate⟩ := stepA_eq_some hstep
  obtain ⟨-, -, -, -, -, -, -, -, -, -, hsl, -, -⟩ := finalizeA_fields _ c₀
  rw [hsl]
  exact hgate hrq

/-- Claim C9: with all other parameters fixed, raising `min_rr` strictly
can only remove qualifying candidates, never add ones: the Strategy A
survivor set (and, at `scanA` level, its ticker set) and the emitted
Strategy B BREAKOUT rows under `min_rr' > min_rr` are subsets of those
under `min_rr`. -/
theorem c9_min_rr_monotone (sq : ℚ → ℚ) (capOf : ℕ → Option ℚ) (rows : List Row)
    (tol sb ms mr mr' : ℚ) (slb tlb : ℕ) (u : ℤ) (rq : Bool) (hmr : mr < mr') :
    (∀ c : CandA, c ∈ cohortA sq rows ⟨tol, slb, sb, tlb, mr', u, rq, ms⟩ →
        c ∈ cohortA sq rows ⟨tol, slb, sb, tlb, mr, u, rq, ms⟩)
    ∧ (∀ c : CandA, c ∈ scanA sq rows ⟨tol, slb, sb, tlb, mr', u, rq, ms⟩ →
        ∃ c' ∈ scanA sq rows ⟨tol, slb, sb, tlb, mr, u, rq, ms⟩, c'.ticker = c.ticker)
    ∧ (∀ c : CandB, c.stage = Stage.BREAKOUT →
        c ∈ okListB (scanB sq capOf rows ⟨tol, slb, sb, tlb, mr', u, rq, ms⟩) →
        c ∈ okListB (scanB sq capOf rows ⟨tol, slb, sb, tlb, mr, u, rq, ms⟩)) := by
  have hA : ∀ c : CandA, c ∈ cohortA sq rows ⟨tol, slb, sb, tlb, mr', u, rq, ms⟩ →
      c ∈ cohortA sq rows ⟨tol, slb, sb, tlb, mr, u, rq, ms⟩ := by
    intro c hc
    obtain ⟨t, ht, hstep⟩ := mem_cohortA.mp hc
    obtain ⟨hcore, hminrr, hgate⟩ := stepA_eq_some hstep
    refine mem_cohortA.mpr ⟨t, ht, stepA_of_core ?_ ?_ ?_⟩
    · exact (stepACore_params_irrel sq t (groupOf rows t) tol sb slb tlb
        mr mr' ms ms u u rq rq).trans hcore
    · exact le_trans (le_of_lt hmr) hminrr
    · exact hgate
  refine ⟨hA, ?_, ?_⟩
  · intro c hc
    have hne : rows ≠ [] := scanA_ne_nil_rows hc
    obtain ⟨c₀, hc₀, rfl⟩ := mem_scanA hc
    refine ⟨finalizeA (retsA sq rows ⟨tol, slb, sb, tlb, mr, u, rq, ms⟩) c₀,
      mem_scanA_of hne (hA c₀ hc₀), ?_⟩
    rw [(finalizeA_fields (retsA sq rows ⟨tol, slb, sb, tlb, mr, u, rq, ms⟩) c₀).1,
      (finalizeA_fields (retsA sq rows ⟨tol, slb, sb, tlb, mr', u, rq, ms⟩) c₀).1]
  · intro c hst hc
    have hne : rows ≠ [] := scanB_ne_nil_rows hc
    obtain ⟨t, ht, hstep⟩ := mem_okListB hc
    obtain ⟨hcore, hgate⟩ := stepB_eq_some hstep
    refine mem_okListB_of hne ht (stepB_of_core ?_ ?_)
    · exact (stepBCore_params_irrel sq capOf t (groupOf rows t) tol sb slb tlb
        mr mr' ms ms u u rq rq).trans hcore
    · intro hs
      exact le_trans (le_of_lt hmr) (hgate hs)

/-- Witness for `c9_min_rr_monotone`: `min_rr` raised from 1.5 to 2 over
the concrete breakout panel. -/
theorem c9_min_rr_monotone_witness :
    (∀ c : CandA, c ∈ cohortA sqId panelB0 ⟨cq 3 100, 10, cq 1 200, 20, cq 2 1, 0, false, 0⟩ →
        c ∈ cohortA sqId panelB0 ⟨cq 3 100, 10, cq 1 200, 20, cq 3 2, 0, false, 0⟩)
    ∧ (∀ c : CandA, c ∈ scanA sqId panelB0 ⟨cq 3 100, 10, cq 1 200, 20, cq 2 1, 0, false, 0⟩ →
        ∃ c' ∈ scanA sqId panelB0 ⟨cq 3 100, 10, cq 1 200, 20, cq 3 2, 0, false, 0⟩,
          c'.ticker = c.ticker)
    ∧ (∀ c : CandB, c.stage = Stage.BREAKOUT →
        c ∈ okListB (scanB sqId capB0 panelB0 ⟨cq 3 100, 10, cq 1 200, 20, cq 2 1, 0, false, 0⟩) →
        c ∈ okListB (scanB sqId capB0 panelB0 ⟨cq 3 100, 10, cq 1 200, 20, cq 3 2, 0, false, 0⟩)) :=
  c9_min_rr_monotone sqId capB0 panelB0 (cq 3 100) (cq 1 200) 0 (cq 3 2) (cq 2 1)
    10 20 0 false (by decide)

/-- Claim C10: Strategy B's market-cap pre-filter is fail-closed — a
ticker absent from the external market-cap lookup (`cap_map.get(t, 0)`
yields 0, below the 3000억 floor), including when the whole lookup is
empty, never yields an emitted candidate, whatever its price and volume
history. -/
theorem c10_cap_fail_closed (sq : ℚ → ℚ) (capOf : ℕ → Option ℚ) (rows : List Row)
    (p : ScanParams) (t : ℕ) (hcap : capOf t = none) :
    ∀ c ∈ okListB (scanB sq capOf rows p), c.ticker ≠ t := by
  intro c hc
  obtain ⟨t', ht', hstep⟩ := mem_okListB hc
  obtain ⟨hcore, -⟩ := stepB_eq_some hstep
  rw [(stepBCore_props hcore).1]
  intro he
  rw [he] at hcore
  rw [stepBCore_cap_none hcap] at hcore
  exact Option.noConfusion hcore

/-- Witness for `c10_cap_fail_closed`: ticker 2 is absent from the
concrete market-cap lookup, so no emitted candidate carries it. -/
theorem c10_cap_fail_closed_witness :
    capB0 2 = none
    ∧ ∀ c ∈ okListB (scanB sqId capB0 panelB0 paramsA0), c.ticker ≠ 2 :=
  ⟨rfl, c10_cap_fail_closed sqId capB0 panelB0 paramsA0 2 rfl⟩
